import Mathlib

/-!
Shallow embedding of the rebasing stock token and its non-rebasing wrapper
from the Go sources of this repository (main.go together with the variant
files that add Claim and the recipient-directed Unwrap).  Balance maps are
association lists; Go big.Int division and modulus are Euclidean, so they
are the Int operations written / and %, which are Euclidean in this Lean; Go run time failures (explicit panics, division
by zero inside math/big, and nil pointer dereferences produced by reading a
missing map entry as a nil big.Int) are explicit error values that carry
the ledger state at the moment the failure occurs.
-/

namespace Ondo

/-- Fixed point scale factor, 6 decimal places, from the Go constant. -/
def basePrecision : Int := 1000000

/-- A balance map: association list from address to scaled integer amount. -/
abbrev Balances := List (String × Int)

/-- Reading a map entry: a missing key yields none, matching a nil big.Int. -/
def lookupBal (l : Balances) (k : String) : Option Int :=
  match l with
  | [] => none
  | p :: rest => if p.1 = k then some p.2 else lookupBal rest k

/-- Balance of an address, reading a missing entry as zero. -/
def getOr0 (l : Balances) (k : String) : Int := (lookupBal l k).getD 0

/-- Replace the value stored under key k by f of that value. -/
def updBal (l : Balances) (k : String) (f : Int → Int) : Balances :=
  l.map (fun p => if p.1 = k then (p.1, f p.2) else p)

/-- Apply f to every stored value, as the Go loops over the balances map do. -/
def mapVals (l : Balances) (f : Int → Int) : Balances :=
  l.map (fun p => (p.1, f p.2))

/-- Create a zero entry for k when it is absent, as the Go nil checks do. -/
def insert0 (l : Balances) (k : String) : Balances :=
  if (lookupBal l k).isSome then l else l ++ [(k, 0)]

/-- Sum of all stored balances. -/
def valSum (l : Balances) : Int := (l.map Prod.snd).sum

/-- The list of keys of a balance map. -/
def keysOf (l : Balances) : List String := l.map Prod.fst

/-- Failure kinds of the Go code: the explicit insufficient balance panics,
a nil pointer dereference from using a missing map entry, a division by
zero inside math/big, and the claim guard on non contract addresses. -/
inductive Err where
  | insufficientBalance
  | nilDeref
  | divByZero
  | invalidOperation
deriving DecidableEq

/-- The rebasing stock token, from the Go struct StockToken. -/
structure StockToken where
  ticker : String
  totalSupply : Int
  balances : Balances
  rebaseMultiplier : Int
deriving DecidableEq

/-- The non rebasing wrapper token, from the Go struct OndoWrappedStock. -/
structure OndoWrappedStock where
  ticker : String
  totalSupply : Int
  balances : Balances
  exchangeRate : Int
deriving DecidableEq

/-- NewStockToken from the Go source. -/
def NewStockToken (ticker : String) : StockToken :=
  { ticker := ticker, totalSupply := 0, balances := [], rebaseMultiplier := 1 }

/-- NewOndoWrappedStock from the Go source: the wrapper ticker gets the
ow marker and the exchange rate starts at one scale factor. -/
def NewOndoWrappedStock (ticker : String) : OndoWrappedStock :=
  { ticker := "ow" ++ ticker, totalSupply := 0, balances := [],
    exchangeRate := basePrecision }

/-- The Go conversion int64(v) of a uint64 value: the value reduced mod
2 to the 64 and wrapped into the signed 64 bit range, so values of 2 to
the 63 and above come out negative. -/
def toInt64 (v : Nat) : Int :=
  if v % 2 ^ 64 < 2 ^ 63 then ((v % 2 ^ 64 : Nat) : Int)
  else ((v % 2 ^ 64 : Nat) : Int) - 2 ^ 64

/-- Mint from the Go source: credits shares times the scale factor to the
address and to the total supply, creating the entry when absent.  The Go
code converts the uint64 share count through int64, so counts of 2 to
the 63 and above credit a negative amount. -/
def Mint (t : StockToken) (address : String) (shares : Nat) : StockToken :=
  let amount : Int := toInt64 shares * basePrecision
  { t with
    balances := updBal (insert0 t.balances address) address (· + amount),
    totalSupply := t.totalSupply + amount }

/-- The runtime tag of the Go Rebase argument: a uint64 split multiplier,
a Dividend value, or any other value, which the type switch ignores. -/
inductive RebaseAction where
  | split (multiplier : Nat)
  | dividend (cashAmount sharePrice : Int)
  | other
deriving DecidableEq

/-- Rebase from the Go source.  A split multiplies every stored balance by
the int64 conversion of the uint64 multiplier (negative from 2 to the 63
upward) and records it; a dividend divides scale times cash by the
share price (a zero price is a big.Int division by zero panic, raised
before any balance is touched) and credits each stored balance b with
floor of b times that ratio over the scale; any other action is skipped. -/
def Rebase (t : StockToken) (action : RebaseAction) :
    Except (Err × StockToken) StockToken :=
  match action with
  | .split m =>
      .ok { t with
        balances := mapVals t.balances (· * toInt64 m),
        rebaseMultiplier := toInt64 m }
  | .dividend cash price =>
      if price = 0 then .error (.divByZero, t)
      else
        let shareRatio := (basePrecision * cash) / price
        .ok { t with
          balances := mapVals t.balances
            (fun b => b + (b * shareRatio) / basePrecision) }
  | .other => .ok t

/-- Wrap from the Go source.  Reading a missing sender entry is a nil
dereference; a balance below the amount panics; the wrapped amount is the
floor of amount times scale over the exchange rate (a zero rate is a
division by zero); then the amount moves from the sender to the custody
entry of the stock ledger (created when absent) and the wrapped amount is
minted to the sender on the wrapper ledger. -/
def Wrap (ow : OndoWrappedStock) (st : StockToken) (frm : String)
    (amount : Int) :
    Except (Err × OndoWrappedStock × StockToken)
      (OndoWrappedStock × StockToken) :=
  match lookupBal st.balances frm with
  | none => .error (.nilDeref, ow, st)
  | some b =>
    if b < amount then .error (.insufficientBalance, ow, st)
    else if ow.exchangeRate = 0 then .error (.divByZero, ow, st)
    else
      let owAmount := (amount * basePrecision) / ow.exchangeRate
      let st1 := { st with balances := updBal st.balances frm (· - amount) }
      let st2 := { st1 with
        balances := updBal (insert0 st1.balances ow.ticker) ow.ticker
          (· + amount) }
      let ow1 := { ow with
        balances := updBal (insert0 ow.balances frm) frm (· + owAmount),
        totalSupply := ow.totalSupply + owAmount }
      .ok (ow1, st2)

/-- Unwrap from main.go.  Reading a missing holder entry is a nil
dereference; a balance below the amount panics; the underlying amount is
the floor of amount times rate over scale; the wrapped amount is burned
from the holder and the supply, and only then are the custody and holder
entries of the stock ledger read, so a missing entry there is a nil
dereference that leaves the wrapper mutations in place. -/
def Unwrap (ow : OndoWrappedStock) (st : StockToken) (frm : String)
    (owAmount : Int) :
    Except (Err × OndoWrappedStock × StockToken)
      (OndoWrappedStock × StockToken) :=
  match lookupBal ow.balances frm with
  | none => .error (.nilDeref, ow, st)
  | some b =>
    if b < owAmount then .error (.insufficientBalance, ow, st)
    else
      let tslaAmount := (owAmount * ow.exchangeRate) / basePrecision
      let ow1 := { ow with
        balances := updBal ow.balances frm (· - owAmount),
        totalSupply := ow.totalSupply - owAmount }
      match lookupBal st.balances ow.ticker with
      | none => .error (.nilDeref, ow1, st)
      | some _ =>
        let st1 := { st with
          balances := updBal st.balances ow.ticker (· - tslaAmount) }
        match lookupBal st1.balances frm with
        | none => .error (.nilDeref, ow1, st1)
        | some _ =>
          .ok (ow1, { st1 with
            balances := updBal st1.balances frm (· + tslaAmount) })

/-- Transfer on the wrapper ledger, from the Go source.  Reading a missing
sender entry is a nil dereference; the recipient entry is created when
absent; then the amount moves from sender to recipient. -/
def Transfer (ow : OndoWrappedStock) (frm toAddr : String) (amount : Int) :
    Except (Err × OndoWrappedStock) OndoWrappedStock :=
  match lookupBal ow.balances frm with
  | none => .error (.nilDeref, ow)
  | some b =>
    if b < amount then .error (.insufficientBalance, ow)
    else
      let ow1 := { ow with balances := insert0 ow.balances toAddr }
      let ow2 := { ow1 with balances := updBal ow1.balances frm (· - amount) }
      .ok { ow2 with balances := updBal ow2.balances toAddr (· + amount) }

/-- UpdateExchangeRate from the Go source: a no op when the wrapper supply
is zero, otherwise the rate becomes the floor of custody balance times
scale over the wrapper supply; reading a missing custody entry there is a
nil dereference. -/
def UpdateExchangeRate (ow : OndoWrappedStock) (st : StockToken) :
    Except (Err × OndoWrappedStock) OndoWrappedStock :=
  if ow.totalSupply = 0 then .ok ow
  else
    match lookupBal st.balances ow.ticker with
    | none => .error (.nilDeref, ow)
    | some c =>
      .ok { ow with exchangeRate := (c * basePrecision) / ow.totalSupply }

/-- Modelled from the spec: the repository has no standalone stock ledger
transfer function (only the regular branch of Interact), so this follows
the transfer contract of the spec for the rebasing ledger: an absent key
is a zero balance, a debit above the available balance fails with the
insufficient balance error and no mutation, and otherwise the amount
moves from the sender to the recipient, entries being created as
needed. -/
def STransfer (t : StockToken) (frm toAddr : String) (amount : Int) :
    Except (Err × StockToken) StockToken :=
  if getOr0 t.balances frm < amount then .error (.insufficientBalance, t)
  else
    let t1 := { t with balances := insert0 t.balances frm }
    let t2 := { t1 with balances := insert0 t1.balances toAddr }
    let t3 := { t2 with balances := updBal t2.balances frm (· - amount) }
    .ok { t3 with balances := updBal t3.balances toAddr (· + amount) }

/-- The Go check strings.HasPrefix(addr, "0xCONTRACT"), written with the
structural list recursion on the character data so that it evaluates. -/
def hasContractMarker (addr : String) : Bool :=
  "0xCONTRACT".data.isPrefixOf addr.data

/-- Interact from the Go source.  When the recipient address carries the
reserved contract marker, wrap the amount and then transfer, inside the
wrapper ledger, the floor of amount times scale over the original rate
(the rate is unchanged by Wrap, so this equals the minted amount);
otherwise do a regular transfer on the stock ledger. -/
def Interact (t : StockToken) (frm toAddr : String) (amount : Int)
    (ows : OndoWrappedStock) :
    Except (Err × StockToken × OndoWrappedStock)
      (StockToken × OndoWrappedStock) :=
  if hasContractMarker toAddr then
    match Wrap ows t frm amount with
    | .error (e, ow1, st1) => .error (e, st1, ow1)
    | .ok (ow1, st1) =>
      let wrappedAmount := (amount * basePrecision) / ows.exchangeRate
      match Transfer ow1 frm toAddr wrappedAmount with
      | .error (e, ow2) => .error (e, st1, ow2)
      | .ok ow2 => .ok (st1, ow2)
  else
    match lookupBal t.balances frm with
    | none => .error (.nilDeref, t, ows)
    | some b =>
      if b < amount then .error (.insufficientBalance, t, ows)
      else
        let t1 := { t with balances := insert0 t.balances toAddr }
        let t2 := { t1 with balances := updBal t1.balances frm (· - amount) }
        .ok ({ t2 with balances := updBal t2.balances toAddr (· + amount) }, ows)

/-- Unwrap from the variant file: the balance check and the burn act on the
literal contract address, the underlying goes to the recipient, whose
stock entry is created when absent; the custody entry of the stock ledger
is still read without a nil check, after the burn. -/
def UnwrapP1 (ow : OndoWrappedStock) (st : StockToken) (toAddr : String)
    (owAmount : Int) :
    Except (Err × OndoWrappedStock × StockToken)
      (OndoWrappedStock × StockToken) :=
  match lookupBal ow.balances "0xCONTRACT" with
  | none => .error (.insufficientBalance, ow, st)
  | some b =>
    if b < owAmount then .error (.insufficientBalance, ow, st)
    else
      let tslaAmount := (owAmount * ow.exchangeRate) / basePrecision
      let ow1 := { ow with
        balances := updBal ow.balances "0xCONTRACT" (· - owAmount),
        totalSupply := ow.totalSupply - owAmount }
      match lookupBal st.balances ow.ticker with
      | none => .error (.nilDeref, ow1, st)
      | some _ =>
        let st1 := { st with
          balances := updBal st.balances ow.ticker (· - tslaAmount) }
        let st2 := { st1 with
          balances := updBal (insert0 st1.balances toAddr) toAddr
            (· + tslaAmount) }
        .ok (ow1, st2)

/-- Claim from the variant file: only contract marked sources are allowed;
a missing source entry makes the clamp branch format a nil big.Int, a nil
dereference; a request above the source balance is clamped down to that
balance; then the clamped amount is unwrapped to the recipient. -/
def Claim (ow : OndoWrappedStock) (st : StockToken) (frm toAddr : String)
    (wrappedAmount : Int) :
    Except (Err × OndoWrappedStock × StockToken)
      (OndoWrappedStock × StockToken) :=
  if ¬ hasContractMarker frm then .error (.invalidOperation, ow, st)
  else
    match lookupBal ow.balances frm with
    | none => .error (.nilDeref, ow, st)
    | some b =>
      let amt := if b < wrappedAmount then b else wrappedAmount
      UnwrapP1 ow st toAddr amt

/-- Total truncation remainder of a dividend distribution, scaled by the
scale factor: the sum over stored balances of the Euclidean remainder of
balance times share ratio by the scale.  Dividing it by the scale gives
the loss in raw share units, so a bound by n times the scale says the raw
loss is below n. -/
def dividendLoss (l : Balances) (shareRatio : Int) : Int :=
  (l.map (fun p => (p.2 * shareRatio) % basePrecision)).sum

/-- One successful operation of the system: a mint, a wrapper transfer, a
wrap, an unwrap, a claim, a corporate action of any runtime tag the Go
code accepts, or an exchange rate update.  Monetary amounts are the
natural numbers a caller can denote; the dividend fields are the
arbitrary integers the Dividend struct holds. -/
inductive Step : StockToken × OndoWrappedStock → StockToken × OndoWrappedStock → Prop where
  | mint (t : StockToken) (ow : OndoWrappedStock) (addr : String) (shares : Nat) :
      Step (t, ow) (Mint t addr shares, ow)
  | transfer (t : StockToken) (ow : OndoWrappedStock) (frm toAddr : String)
      (a : Nat) (ow1 : OndoWrappedStock) :
      Transfer ow frm toAddr (a : Int) = .ok ow1 → Step (t, ow) (t, ow1)
  | wrap (t : StockToken) (ow : OndoWrappedStock) (frm : String) (a : Nat)
      (ow1 : OndoWrappedStock) (t1 : StockToken) :
      Wrap ow t frm (a : Int) = .ok (ow1, t1) → Step (t, ow) (t1, ow1)
  | unwrap (t : StockToken) (ow : OndoWrappedStock) (frm : String) (a : Nat)
      (ow1 : OndoWrappedStock) (t1 : StockToken) :
      Unwrap ow t frm (a : Int) = .ok (ow1, t1) → Step (t, ow) (t1, ow1)
  | claim (t : StockToken) (ow : OndoWrappedStock) (frm toAddr : String) (a : Nat)
      (ow1 : OndoWrappedStock) (t1 : StockToken) :
      Claim ow t frm toAddr (a : Int) = .ok (ow1, t1) → Step (t, ow) (t1, ow1)
  | rebase (t : StockToken) (ow : OndoWrappedStock) (act : RebaseAction)
      (t1 : StockToken) :
      Rebase t act = .ok t1 → Step (t, ow) (t1, ow)
  | update (t : StockToken) (ow : OndoWrappedStock) (ow1 : OndoWrappedStock) :
      UpdateExchangeRate ow t = .ok ow1 → Step (t, ow) (t, ow1)

/-- A corporate action respecting the data model of the spec: a split by a
positive multiplier small enough that the int64 conversion keeps its
value, a dividend with non negative cash and positive share price, or an
ignored action. -/
def ActOk : RebaseAction → Prop
  | .split m => 1 ≤ m ∧ m < 2 ^ 63
  | .dividend cash price => 0 ≤ cash ∧ 0 < price
  | .other => True

/-- The restriction of Step in which every corporate action respects the
data model of the spec (positive split multiplier, non negative dividend
cash, positive share price), mint share counts and split multipliers are
below 2 to the 63 so the int64 conversion of the Go code keeps their
value, and wrap is never invoked with the custody address itself as the
sender (such a wrap debits and credits the custody entry of the stock
ledger for a net of zero while still minting wrapped supply, so it mints
unbacked supply). -/
inductive GoodStep : StockToken × OndoWrappedStock → StockToken × OndoWrappedStock → Prop where
  | mint (t : StockToken) (ow : OndoWrappedStock) (addr : String) (shares : Nat) :
      shares < 2 ^ 63 → GoodStep (t, ow) (Mint t addr shares, ow)
  | transfer (t : StockToken) (ow : OndoWrappedStock) (frm toAddr : String)
      (a : Nat) (ow1 : OndoWrappedStock) :
      Transfer ow frm toAddr (a : Int) = .ok ow1 → GoodStep (t, ow) (t, ow1)
  | wrap (t : StockToken) (ow : OndoWrappedStock) (frm : String) (a : Nat)
      (ow1 : OndoWrappedStock) (t1 : StockToken) :
      frm ≠ ow.ticker →
      Wrap ow t frm (a : Int) = .ok (ow1, t1) → GoodStep (t, ow) (t1, ow1)
  | unwrap (t : StockToken) (ow : OndoWrappedStock) (frm : String) (a : Nat)
      (ow1 : OndoWrappedStock) (t1 : StockToken) :
      Unwrap ow t frm (a : Int) = .ok (ow1, t1) → GoodStep (t, ow) (t1, ow1)
  | claim (t : StockToken) (ow : OndoWrappedStock) (frm toAddr : String) (a : Nat)
      (ow1 : OndoWrappedStock) (t1 : StockToken) :
      Claim ow t frm toAddr (a : Int) = .ok (ow1, t1) → GoodStep (t, ow) (t1, ow1)
  | rebase (t : StockToken) (ow : OndoWrappedStock) (act : RebaseAction)
      (t1 : StockToken) :
      ActOk act → Rebase t act = .ok t1 → GoodStep (t, ow) (t1, ow)
  | update (t : StockToken) (ow : OndoWrappedStock) (ow1 : OndoWrappedStock) :
      UpdateExchangeRate ow t = .ok ow1 → GoodStep (t, ow) (t, ow1)

/-- The invariant carried through every reachable state: the rate is at
least one, the wrapper supply is the sum of the wrapper balances, all
balances of both ledgers are non negative, the wrapper supply valued at
the rate never exceeds the custody balance scaled up, the custody entry
exists whenever the wrapper supply is nonzero, and both maps have
distinct keys. -/
structure Inv (t : StockToken) (ow : OndoWrappedStock) : Prop where
  rate_one : 1 ≤ ow.exchangeRate
  supply_sum : ow.totalSupply = valSum ow.balances
  ow_nonneg : ∀ p ∈ ow.balances, 0 ≤ p.2
  st_nonneg : ∀ p ∈ t.balances, 0 ≤ p.2
  backing : ow.totalSupply * ow.exchangeRate ≤ getOr0 t.balances ow.ticker * basePrecision
  custody_some : ow.totalSupply ≠ 0 → (lookupBal t.balances ow.ticker).isSome = true
  ow_nodup : (keysOf ow.balances).Nodup
  st_nodup : (keysOf t.balances).Nodup

theorem lookupBal_cons (p : String × Int) (l : Balances) (k : String) :
    lookupBal (p :: l) k = if p.1 = k then some p.2 else lookupBal l k := rfl

theorem updBal_cons (p : String × Int) (l : Balances) (k : String) (f : Int → Int) :
    updBal (p :: l) k f = (if p.1 = k then (p.1, f p.2) else p) :: updBal l k f := by
  unfold updBal
  rw [List.map_cons]

theorem mapVals_cons (p : String × Int) (l : Balances) (f : Int → Int) :
    mapVals (p :: l) f = (p.1, f p.2) :: mapVals l f := rfl

theorem valSum_cons (p : String × Int) (l : Balances) :
    valSum (p :: l) = p.2 + valSum l := by
  unfold valSum
  rw [List.map_cons, List.sum_cons]

theorem keysOf_cons (p : String × Int) (l : Balances) :
    keysOf (p :: l) = p.1 :: keysOf l := rfl

theorem lookupBal_updBal_self (l : Balances) (k : String) (f : Int → Int) :
    lookupBal (updBal l k f) k = (lookupBal l k).map f := by
  induction l with
  | nil => rfl
  | cons p rest ih =>
    by_cases h : p.1 = k
    · simp [updBal_cons, lookupBal_cons, h]
    · simp [updBal_cons, lookupBal_cons, h, ih]

theorem lookupBal_updBal_ne (l : Balances) (k k2 : String) (f : Int → Int)
    (h : k2 ≠ k) : lookupBal (updBal l k f) k2 = lookupBal l k2 := by
  induction l with
  | nil => rfl
  | cons p rest ih =>
    rw [updBal_cons, lookupBal_cons]
    by_cases hp : p.1 = k
    · rw [if_pos hp]
      have hne : ¬ ((p.1, f p.2) : String × Int).1 = k2 := fun hc => h ((hc.symm.trans hp).symm ▸ rfl)
      have hne2 : ¬ p.1 = k2 := fun hc => h (hc ▸ hp)
      rw [if_neg hne, lookupBal_cons, if_neg hne2, ih]
    · rw [if_neg hp, lookupBal_cons]
      by_cases hq : p.1 = k2
      · rw [if_pos hq, if_pos hq]
      · rw [if_neg hq, if_neg hq, ih]

theorem lookupBal_append (l1 l2 : Balances) (k : String) :
    lookupBal (l1 ++ l2) k =
      match lookupBal l1 k with
      | some v => some v
      | none => lookupBal l2 k := by
  induction l1 with
  | nil => rfl
  | cons p rest ih =>
    rw [List.cons_append, lookupBal_cons, lookupBal_cons]
    by_cases h : p.1 = k
    · rw [if_pos h, if_pos h]
    · rw [if_neg h, if_neg h, ih]

theorem lookupBal_insert0_self (l : Balances) (k : String) :
    lookupBal (insert0 l k) k = some (getOr0 l k) := by
  unfold insert0 getOr0
  cases hl : lookupBal l k with
  | some v => simp [hl]
  | none =>
    simp only [hl, Option.isSome_none, Bool.false_eq_true, if_false, Option.getD_none]
    rw [lookupBal_append, hl]
    simp [lookupBal_cons]

theorem lookupBal_insert0_ne (l : Balances) (k k2 : String) (h : k2 ≠ k) :
    lookupBal (insert0 l k) k2 = lookupBal l k2 := by
  unfold insert0
  cases hl : (lookupBal l k).isSome with
  | true => simp
  | false =>
    simp only [Bool.false_eq_true, if_false, lookupBal_append]
    cases h2 : lookupBal l k2 with
    | some v => simp
    | none =>
      rw [lookupBal_cons]
      have : ¬ ((k, 0) : String × Int).1 = k2 := fun hc => h (hc ▸ rfl)
      rw [if_neg this]
      rfl

theorem keysOf_updBal (l : Balances) (k : String) (f : Int → Int) :
    keysOf (updBal l k f) = keysOf l := by
  induction l with
  | nil => rfl
  | cons p rest ih =>
    rw [updBal_cons, keysOf_cons, keysOf_cons, ih]
    by_cases h : p.1 = k
    · rw [if_pos h]
    · rw [if_neg h]

theorem keysOf_mapVals (l : Balances) (f : Int → Int) :
    keysOf (mapVals l f) = keysOf l := by
  induction l with
  | nil => rfl
  | cons p rest ih =>
    rw [mapVals_cons, keysOf_cons, keysOf_cons, ih]

theorem lookupBal_isSome_iff (l : Balances) (k : String) :
    (lookupBal l k).isSome = true ↔ k ∈ keysOf l := by
  induction l with
  | nil =>
    constructor
    · intro h
      cases h
    · intro h
      cases h
  | cons p rest ih =>
    rw [lookupBal_cons, keysOf_cons]
    by_cases h : p.1 = k
    · rw [if_pos h]
      constructor
      · intro _
        exact h ▸ List.mem_cons_self p.1 (keysOf rest)
      · intro _
        rfl
    · rw [if_neg h]
      constructor
      · intro hs
        exact List.mem_cons_of_mem _ (ih.1 hs)
      · intro hm
        rcases List.mem_cons.1 hm with hm | hm
        · exact absurd hm.symm h
        · exact ih.2 hm

theorem keysOf_insert0 (l : Balances) (k : String) :
    keysOf (insert0 l k) =
      if (lookupBal l k).isSome then keysOf l else keysOf l ++ [k] := by
  unfold insert0
  cases hl : (lookupBal l k).isSome with
  | true => simp
  | false =>
    simp only [Bool.false_eq_true, if_false]
    unfold keysOf
    rw [List.map_append]
    rfl

theorem nodup_insert0 (l : Balances) (k : String)
    (h : (keysOf l).Nodup) : (keysOf (insert0 l k)).Nodup := by
  rw [keysOf_insert0]
  cases hl : (lookupBal l k).isSome with
  | true => simpa using h
  | false =>
    have hk : ¬ k ∈ keysOf l := by
      rw [← lookupBal_isSome_iff, hl]
      simp
    simp only [Bool.false_eq_true, if_false]
    rw [List.nodup_append]
    exact ⟨h, List.nodup_singleton k, by simpa using hk⟩

theorem valSum_insert0 (l : Balances) (k : String) :
    valSum (insert0 l k) = valSum l := by
  unfold insert0
  cases hl : (lookupBal l k).isSome with
  | true => simp
  | false =>
    simp only [Bool.false_eq_true, if_false]
    unfold valSum
    rw [List.map_append, List.sum_append]
    simp

theorem lookupBal_eq_of_mem (l : Balances) (p : String × Int)
    (hn : (keysOf l).Nodup) (hp : p ∈ l) : lookupBal l p.1 = some p.2 := by
  induction l with
  | nil => cases hp
  | cons q rest ih =>
    rw [keysOf_cons, List.nodup_cons] at hn
    rw [lookupBal_cons]
    rcases List.mem_cons.1 hp with h | h
    · subst h
      rw [if_pos rfl]
    · by_cases hq : q.1 = p.1
      · exfalso
        apply hn.1
        rw [hq]
        exact List.mem_map_of_mem Prod.fst h
      · rw [if_neg hq]
        exact ih hn.2 h

theorem updBal_of_lookup_none (l : Balances) (k : String) (f : Int → Int)
    (h : lookupBal l k = none) : updBal l k f = l := by
  induction l with
  | nil => rfl
  | cons p rest ih =>
    rw [lookupBal_cons] at h
    by_cases hp : p.1 = k
    · rw [if_pos hp] at h
      cases h
    · rw [if_neg hp] at h
      rw [updBal_cons, if_neg hp, ih h]

theorem valSum_updBal (l : Balances) (k : String) (v : Int) (f : Int → Int)
    (hn : (keysOf l).Nodup) (hv : lookupBal l k = some v) :
    valSum (updBal l k f) = valSum l + (f v - v) := by
  induction l with
  | nil => cases hv
  | cons p rest ih =>
    rw [keysOf_cons, List.nodup_cons] at hn
    rw [lookupBal_cons] at hv
    rw [updBal_cons]
    by_cases h : p.1 = k
    · rw [if_pos h] at hv ⊢
      have hvp : v = p.2 := (Option.some.inj hv).symm
      have hnone : lookupBal rest k = none := by
        cases hr : lookupBal rest k with
        | none => rfl
        | some w =>
          exfalso
          exact hn.1 (by rw [h]; exact (lookupBal_isSome_iff rest k).1 (by rw [hr]; rfl))
      rw [updBal_of_lookup_none rest k f hnone]
      rw [valSum_cons, valSum_cons, hvp]
      ring
    · rw [if_neg h] at hv ⊢
      rw [valSum_cons, valSum_cons, ih hn.2 hv]
      ring

theorem lookupBal_mapVals (l : Balances) (f : Int → Int) (k : String) :
    lookupBal (mapVals l f) k = (lookupBal l k).map f := by
  induction l with
  | nil => rfl
  | cons p rest ih =>
    rw [mapVals_cons, lookupBal_cons, lookupBal_cons]
    by_cases h : p.1 = k
    · rw [if_pos h, if_pos h]
      rfl
    · rw [if_neg h, if_neg h, ih]

theorem nonneg_insert0 (l : Balances) (k : String)
    (h : ∀ p ∈ l, 0 ≤ p.2) : ∀ p ∈ insert0 l k, 0 ≤ p.2 := by
  intro p hp
  unfold insert0 at hp
  cases hl : (lookupBal l k).isSome with
  | true =>
    rw [hl] at hp
    simp only [if_true] at hp
    exact h p hp
  | false =>
    rw [hl] at hp
    simp only [Bool.false_eq_true, if_false, List.mem_append, List.mem_singleton] at hp
    rcases hp with hp | hp
    · exact h p hp
    · simp [hp]

theorem nonneg_updBal (l : Balances) (k : String) (v : Int) (f : Int → Int)
    (hn : (keysOf l).Nodup) (h : ∀ p ∈ l, 0 ≤ p.2)
    (hv : lookupBal l k = some v) (hfv : 0 ≤ f v) :
    ∀ p ∈ updBal l k f, 0 ≤ p.2 := by
  intro q hq
  rcases List.mem_map.1 hq with ⟨p, hp, hpq⟩
  by_cases hk : p.1 = k
  · have hlp : lookupBal l k = some p.2 := by
      rw [← hk]
      exact lookupBal_eq_of_mem l p hn hp
    rw [hv] at hlp
    have hvp : v = p.2 := Option.some.inj hlp
    rw [if_pos hk] at hpq
    rw [← hpq]
    simpa [← hvp] using hfv
  · rw [if_neg hk] at hpq
    rw [← hpq]
    exact h p hp

theorem nonneg_mapVals (l : Balances) (f : Int → Int)
    (h : ∀ p ∈ l, 0 ≤ p.2) (hf : ∀ x, 0 ≤ x → 0 ≤ f x) :
    ∀ p ∈ mapVals l f, 0 ≤ p.2 := by
  intro q hq
  rcases List.mem_map.1 hq with ⟨p, hp, hpq⟩
  rw [← hpq]
  exact hf p.2 (h p hp)

theorem getOr0_updBal_insert0_self (l : Balances) (k : String) (f : Int → Int) :
    getOr0 (updBal (insert0 l k) k f) k = f (getOr0 l k) := by
  unfold getOr0
  rw [lookupBal_updBal_self, lookupBal_insert0_self]
  rfl

theorem getOr0_updBal_ne (l : Balances) (k k2 : String) (f : Int → Int)
    (h : k2 ≠ k) : getOr0 (updBal l k f) k2 = getOr0 l k2 := by
  unfold getOr0
  rw [lookupBal_updBal_ne _ _ _ _ h]

theorem getOr0_insert0_ne (l : Balances) (k k2 : String) (h : k2 ≠ k) :
    getOr0 (insert0 l k) k2 = getOr0 l k2 := by
  unfold getOr0
  rw [lookupBal_insert0_ne _ _ _ h]

theorem getOr0_updBal_some (l : Balances) (k : String) (f : Int → Int)
    (v : Int) (hv : lookupBal l k = some v) :
    getOr0 (updBal l k f) k = f v := by
  unfold getOr0
  rw [lookupBal_updBal_self, hv]
  rfl

theorem toInt64_eq_of_lt (v : Nat) (h : v < 2 ^ 63) : toInt64 v = (v : Int) := by
  unfold toInt64
  have h64 : v % 2 ^ 64 = v := Nat.mod_eq_of_lt (lt_trans h (by norm_num))
  rw [h64, if_pos h]

theorem mem_of_lookupBal (l : Balances) (k : String) (v : Int)
    (h : lookupBal l k = some v) : (k, v) ∈ l := by
  induction l with
  | nil => cases h
  | cons p rest ih =>
    rw [lookupBal_cons] at h
    by_cases hp : p.1 = k
    · rw [if_pos hp] at h
      have hv := Option.some.inj h
      have hpe : p = (k, v) := by
        obtain ⟨k0, v0⟩ := p
        rw [show k0 = k from hp, show v0 = v from hv]
      rw [← hpe]
      exact List.mem_cons_self p rest
    · rw [if_neg hp] at h
      exact List.mem_cons_of_mem p (ih h)

theorem lookupBal_nonneg (l : Balances) (k : String) (v : Int)
    (hall : ∀ p ∈ l, 0 ≤ p.2) (h : lookupBal l k = some v) : 0 ≤ v :=
  hall (k, v) (mem_of_lookupBal l k v h)

theorem getOr0_nonneg (l : Balances) (hall : ∀ p ∈ l, 0 ≤ p.2) (k : String) :
    0 ≤ getOr0 l k := by
  unfold getOr0
  cases h : lookupBal l k with
  | none => simp
  | some v => simpa using lookupBal_nonneg l k v hall h

theorem lookupBal_le_valSum (l : Balances) (k : String) (v : Int)
    (hall : ∀ p ∈ l, 0 ≤ p.2) (h : lookupBal l k = some v) : v ≤ valSum l := by
  have hm : v ∈ l.map Prod.snd :=
    List.mem_map_of_mem Prod.snd (mem_of_lookupBal l k v h)
  exact List.single_le_sum
    (fun x hx => by
      rcases List.mem_map.1 hx with ⟨p, hp, hpx⟩
      rw [← hpx]
      exact hall p hp) v hm

theorem getOr0_mapVals_zero (l : Balances) (f : Int → Int) (hf : f 0 = 0)
    (k : String) : getOr0 (mapVals l f) k = f (getOr0 l k) := by
  unfold getOr0
  rw [lookupBal_mapVals]
  cases h : lookupBal l k with
  | none => simpa using hf.symm
  | some v => rfl

theorem isSome_lookupBal_updBal (l : Balances) (k2 : String) (f : Int → Int)
    (k : String) :
    (lookupBal (updBal l k2 f) k).isSome = (lookupBal l k).isSome := by
  by_cases h : k = k2
  · subst h
    rw [lookupBal_updBal_self]
    cases lookupBal l k <;> rfl
  · rw [lookupBal_updBal_ne _ _ _ _ h]

theorem isSome_lookupBal_insert0 (l : Balances) (k2 k : String)
    (h : (lookupBal l k).isSome = true) :
    (lookupBal (insert0 l k2) k).isSome = true := by
  by_cases hk : k = k2
  · subst hk
    rw [lookupBal_insert0_self]
    rfl
  · rw [lookupBal_insert0_ne _ _ _ hk]
    exact h

theorem isSome_lookupBal_mapVals (l : Balances) (f : Int → Int) (k : String) :
    (lookupBal (mapVals l f) k).isSome = (lookupBal l k).isSome := by
  rw [lookupBal_mapVals]
  cases lookupBal l k <;> rfl

theorem Transfer_ok_inv (ow ow1 : OndoWrappedStock) (frm toAddr : String)
    (a : Int) (h : Transfer ow frm toAddr a = .ok ow1) :
    ∃ b, lookupBal ow.balances frm = some b ∧ ¬ b < a ∧
      ow1 = { ow with
          balances :=
            updBal (updBal (insert0 ow.balances toAddr) frm (· - a)) toAddr
              (· + a) } := by
  unfold Transfer at h
  split at h
  · cases h
  · rename_i b hb
    split at h
    · cases h
    · rename_i hba
      exact ⟨b, hb, hba, (Except.ok.inj h).symm⟩

theorem Wrap_ok_inv (ow ow1 : OndoWrappedStock) (st st1 : StockToken)
    (frm : String) (a : Int) (h : Wrap ow st frm a = .ok (ow1, st1)) :
    ∃ b, lookupBal st.balances frm = some b ∧ ¬ b < a ∧
      ¬ ow.exchangeRate = 0 ∧
      ow1 = { ow with
          balances :=
            updBal (insert0 ow.balances frm) frm
              (· + (a * basePrecision) / ow.exchangeRate),
          totalSupply :=
            ow.totalSupply + (a * basePrecision) / ow.exchangeRate } ∧
      st1 = { st with
          balances :=
            updBal (insert0 (updBal st.balances frm (· - a)) ow.ticker)
              ow.ticker (· + a) } := by
  unfold Wrap at h
  split at h
  · cases h
  · rename_i b hb
    split at h
    · cases h
    · rename_i hba
      split at h
      · cases h
      · rename_i hr
        injection h with h
        injection h with h1 h2
        exact ⟨b, hb, hba, hr, h1.symm, h2.symm⟩

theorem Unwrap_ok_inv (ow ow1 : OndoWrappedStock) (st st1 : StockToken)
    (frm : String) (a : Int) (h : Unwrap ow st frm a = .ok (ow1, st1)) :
    ∃ b c d, lookupBal ow.balances frm = some b ∧ ¬ b < a ∧
      lookupBal st.balances ow.ticker = some c ∧
      lookupBal (updBal st.balances ow.ticker
        (· - (a * ow.exchangeRate) / basePrecision)) frm = some d ∧
      ow1 = { ow with
          balances := updBal ow.balances frm (· - a),
          totalSupply := ow.totalSupply - a } ∧
      st1 = { st with
          balances :=
            updBal (updBal st.balances ow.ticker
                (· - (a * ow.exchangeRate) / basePrecision)) frm
              (· + (a * ow.exchangeRate) / basePrecision) } := by
  unfold Unwrap at h
  split at h
  · cases h
  · rename_i b hb
    split at h
    · cases h
    · rename_i hba
      simp only [] at h
      split at h
      · cases h
      · rename_i c hc
        split at h
        · cases h
        · rename_i d hd
          injection h with h
          injection h with h1 h2
          exact ⟨b, c, d, hb, hba, hc, hd, h1.symm, h2.symm⟩

theorem UnwrapP1_ok_inv (ow ow1 : OndoWrappedStock) (st st1 : StockToken)
    (toAddr : String) (a : Int) (h : UnwrapP1 ow st toAddr a = .ok (ow1, st1)) :
    ∃ b c, lookupBal ow.balances "0xCONTRACT" = some b ∧ ¬ b < a ∧
      lookupBal st.balances ow.ticker = some c ∧
      ow1 = { ow with
          balances := updBal ow.balances "0xCONTRACT" (· - a),
          totalSupply := ow.totalSupply - a } ∧
      st1 = { st with
          balances :=
            updBal (insert0 (updBal st.balances ow.ticker
                (· - (a * ow.exchangeRate) / basePrecision)) toAddr) toAddr
              (· + (a * ow.exchangeRate) / basePrecision) } := by
  unfold UnwrapP1 at h
  split at h
  · cases h
  · rename_i b hb
    split at h
    · cases h
    · rename_i hba
      simp only [] at h
      split at h
      · cases h
      · rename_i c hc
        injection h with h
        injection h with h1 h2
        exact ⟨b, c, hb, hba, hc, h1.symm, h2.symm⟩

theorem Claim_ok_inv (ow ow1 : OndoWrappedStock) (st st1 : StockToken)
    (frm toAddr : String) (req : Int)
    (h : Claim ow st frm toAddr req = .ok (ow1, st1)) :
    ∃ b0, lookupBal ow.balances frm = some b0 ∧
      UnwrapP1 ow st toAddr (if b0 < req then b0 else req) = .ok (ow1, st1) := by
  unfold Claim at h
  split at h
  · cases h
  · split at h
    · cases h
    · rename_i b0 hb0
      exact ⟨b0, hb0, h⟩

theorem Rebase_split_ok_inv (t t1 : StockToken) (m : Nat)
    (h : Rebase t (.split m) = .ok t1) :
    t1 = { t with
        balances := mapVals t.balances (· * toInt64 m),
        rebaseMultiplier := toInt64 m } := by
  simp only [Rebase] at h
  exact (Except.ok.inj h).symm

theorem Rebase_dividend_ok_inv (t t1 : StockToken) (cash price : Int)
    (h : Rebase t (.dividend cash price) = .ok t1) :
    ¬ price = 0 ∧
    t1 = { t with
        balances :=
          mapVals t.balances
            (fun b => b + (b * ((basePrecision * cash) / price)) / basePrecision) } := by
  simp only [Rebase] at h
  split at h
  · cases h
  · rename_i hp
    exact ⟨hp, (Except.ok.inj h).symm⟩

theorem Update_ok_inv (ow ow1 : OndoWrappedStock) (st : StockToken)
    (h : UpdateExchangeRate ow st = .ok ow1) :
    (ow.totalSupply = 0 ∧ ow1 = ow) ∨
    (¬ ow.totalSupply = 0 ∧ ∃ c, lookupBal st.balances ow.ticker = some c ∧
      ow1 = { ow with exchangeRate := (c * basePrecision) / ow.totalSupply }) := by
  unfold UpdateExchangeRate at h
  split at h
  · rename_i h0
    exact Or.inl ⟨h0, (Except.ok.inj h).symm⟩
  · rename_i h0
    split at h
    · cases h
    · rename_i c hc
      exact Or.inr ⟨h0, c, hc, (Except.ok.inj h).symm⟩

theorem unwrapP1_error_eq (ow : OndoWrappedStock) (st : StockToken)
    (toAddr : String) (a : Int) (e : Err) (ow1 : OndoWrappedStock)
    (st1 : StockToken) (h : UnwrapP1 ow st toAddr a = .error (e, ow1, st1))
    (he : e ≠ .nilDeref) : ow1 = ow ∧ st1 = st := by
  unfold UnwrapP1 at h
  split at h
  · injection h with h
    injection h with h1 h2
    injection h2 with h2 h3
    exact ⟨h2.symm, h3.symm⟩
  · split at h
    · injection h with h
      injection h with h1 h2
      injection h2 with h2 h3
      exact ⟨h2.symm, h3.symm⟩
    · split at h
      · injection h with h
        injection h with h1 h2
        exact absurd h1.symm he
      · cases h

theorem Wrap_ok (ow : OndoWrappedStock) (st : StockToken) (frm : String)
    (amount b : Int) (hb : lookupBal st.balances frm = some b)
    (hba : ¬ b < amount) (hr : ¬ ow.exchangeRate = 0) :
    Wrap ow st frm amount = .ok
      ({ ow with
          balances := updBal (insert0 ow.balances frm) frm
            (· + (amount * basePrecision) / ow.exchangeRate),
          totalSupply := ow.totalSupply + (amount * basePrecision) / ow.exchangeRate },
       { st with
          balances := updBal
            (insert0 (updBal st.balances frm (· - amount)) ow.ticker) ow.ticker
            (· + amount) }) := by
  simp only [Wrap, hb, if_neg hba, if_neg hr]

theorem Transfer_ok (ow : OndoWrappedStock) (frm toAddr : String) (a b : Int)
    (hb : lookupBal ow.balances frm = some b) (hba : ¬ b < a) :
    Transfer ow frm toAddr a = .ok
      { ow with
          balances := updBal (updBal (insert0 ow.balances toAddr) frm (· - a))
            toAddr (· + a) } := by
  simp only [Transfer, hb, if_neg hba]

theorem Unwrap_ok (ow : OndoWrappedStock) (st : StockToken) (frm : String)
    (a b c d : Int) (hb : lookupBal ow.balances frm = some b) (hba : ¬ b < a)
    (hc : lookupBal st.balances ow.ticker = some c)
    (hfrmne : frm ≠ ow.ticker) (hd : lookupBal st.balances frm = some d) :
    Unwrap ow st frm a = .ok
      ({ ow with
          balances := updBal ow.balances frm (· - a),
          totalSupply := ow.totalSupply - a },
       { st with
          balances := updBal
            (updBal st.balances ow.ticker
              (· - (a * ow.exchangeRate) / basePrecision)) frm
            (· + (a * ow.exchangeRate) / basePrecision) }) := by
  have hd2 : lookupBal
      (updBal st.balances ow.ticker (· - (a * ow.exchangeRate) / basePrecision)) frm =
      some d :=
    (lookupBal_updBal_ne st.balances ow.ticker frm _ hfrmne).trans hd
  simp only [Unwrap, hb, if_neg hba, hc, hd2]

theorem UnwrapP1_ok (ow : OndoWrappedStock) (st : StockToken) (toAddr : String)
    (a b c : Int) (hb : lookupBal ow.balances "0xCONTRACT" = some b)
    (hba : ¬ b < a) (hc : lookupBal st.balances ow.ticker = some c) :
    UnwrapP1 ow st toAddr a = .ok
      ({ ow with
          balances := updBal ow.balances "0xCONTRACT" (· - a),
          totalSupply := ow.totalSupply - a },
       { st with
          balances := updBal
            (insert0 (updBal st.balances ow.ticker
              (· - (a * ow.exchangeRate) / basePrecision)) toAddr) toAddr
            (· + (a * ow.exchangeRate) / basePrecision) }) := by
  simp only [UnwrapP1, hb, if_neg hba, hc]

theorem Rebase_dividend_ok (t : StockToken) (cash price : Int)
    (hp : ¬ price = 0) :
    Rebase t (.dividend cash price) = .ok
      { t with
          balances := mapVals t.balances
            (fun b => b + (b * ((basePrecision * cash) / price)) / basePrecision) } := by
  simp only [Rebase, if_neg hp]

theorem valSum_nonneg (l : Balances) (h : ∀ p ∈ l, 0 ≤ p.2) :
    0 ≤ valSum l := by
  apply List.sum_nonneg
  intro x hx
  rcases List.mem_map.1 hx with ⟨p, hp, hpx⟩
  rw [← hpx]
  exact h p hp

theorem inv_init (a b : String) : Inv (NewStockToken a) (NewOndoWrappedStock b) := by
  constructor
  · norm_num [NewOndoWrappedStock, basePrecision]
  · rfl
  · intro p hp
    cases hp
  · intro p hp
    cases hp
  · show (0 : Int) * basePrecision ≤ getOr0 [] ("ow" ++ b) * basePrecision
    simp [getOr0, lookupBal]
  · intro h
    exact absurd rfl h
  · exact List.nodup_nil
  · exact List.nodup_nil

theorem inv_mint (t : StockToken) (ow : OndoWrappedStock) (addr : String)
    (shares : Nat) (hs : shares < 2 ^ 63) (hI : Inv t ow) :
    Inv (Mint t addr shares) ow := by
  have hP : (0 : Int) < basePrecision := by norm_num [basePrecision]
  have ht : toInt64 shares = (shares : Int) := toInt64_eq_of_lt shares hs
  have hamt : 0 ≤ toInt64 shares * basePrecision := by
    rw [ht]
    exact mul_nonneg (Int.natCast_nonneg shares) (by omega)
  constructor
  · exact hI.rate_one
  · exact hI.supply_sum
  · exact hI.ow_nonneg
  · show ∀ p ∈ updBal (insert0 t.balances addr) addr
      (· + toInt64 shares * basePrecision), 0 ≤ p.2
    refine nonneg_updBal _ _ (getOr0 t.balances addr) _
      (nodup_insert0 _ _ hI.st_nodup) (nonneg_insert0 _ _ hI.st_nonneg)
      (lookupBal_insert0_self _ _) ?_
    have := getOr0_nonneg t.balances hI.st_nonneg addr
    omega
  · show ow.totalSupply * ow.exchangeRate ≤
      getOr0 (updBal (insert0 t.balances addr) addr
        (· + toInt64 shares * basePrecision)) ow.ticker * basePrecision
    by_cases hk : ow.ticker = addr
    · rw [hk, getOr0_updBal_insert0_self]
      have hb := hI.backing
      rw [hk] at hb
      have hg := getOr0_nonneg t.balances hI.st_nonneg addr
      nlinarith [hb, hamt, hP]
    · rw [getOr0_updBal_ne _ _ _ _ hk, getOr0_insert0_ne _ _ _ hk]
      exact hI.backing
  · intro hS
    show (lookupBal (updBal (insert0 t.balances addr) addr
      (· + toInt64 shares * basePrecision)) ow.ticker).isSome = true
    rw [isSome_lookupBal_updBal]
    exact isSome_lookupBal_insert0 _ _ _ (hI.custody_some hS)
  · exact hI.ow_nodup
  · show (keysOf (updBal (insert0 t.balances addr) addr
      (· + toInt64 shares * basePrecision))).Nodup
    rw [keysOf_updBal]
    exact nodup_insert0 _ _ hI.st_nodup

theorem inv_transfer (t : StockToken) (ow ow1 : OndoWrappedStock)
    (frm toAddr : String) (a : Nat)
    (h : Transfer ow frm toAddr (a : Int) = .ok ow1) (hI : Inv t ow) :
    Inv t ow1 := by
  obtain ⟨b, hb, hba, rfl⟩ := Transfer_ok_inv ow ow1 frm toAddr _ h
  have ha : (0 : Int) ≤ (a : Int) := Int.natCast_nonneg a
  have hn1 : (keysOf (insert0 ow.balances toAddr)).Nodup :=
    nodup_insert0 _ _ hI.ow_nodup
  have hnn1 : ∀ p ∈ insert0 ow.balances toAddr, 0 ≤ p.2 :=
    nonneg_insert0 _ _ hI.ow_nonneg
  have hb1 : lookupBal (insert0 ow.balances toAddr) frm = some b := by
    by_cases hf : frm = toAddr
    · subst hf
      rw [lookupBal_insert0_self]
      unfold getOr0
      rw [hb]
      rfl
    · rw [lookupBal_insert0_ne _ _ _ hf]
      exact hb
  have hn2 : (keysOf (updBal (insert0 ow.balances toAddr) frm (· - (a : Int)))).Nodup := by
    rw [keysOf_updBal]
    exact hn1
  have hnn2 : ∀ p ∈ updBal (insert0 ow.balances toAddr) frm (· - (a : Int)), 0 ≤ p.2 :=
    nonneg_updBal _ _ b _ hn1 hnn1 hb1 (by omega)
  have hsum2 : valSum (updBal (insert0 ow.balances toAddr) frm (· - (a : Int))) =
      valSum (insert0 ow.balances toAddr) + ((b - (a : Int)) - b) :=
    valSum_updBal _ _ b _ hn1 hb1
  have hsome2 : (lookupBal (updBal (insert0 ow.balances toAddr) frm (· - (a : Int)))
      toAddr).isSome = true := by
    rw [isSome_lookupBal_updBal, lookupBal_insert0_self]
    rfl
  obtain ⟨v2, hv2⟩ := Option.isSome_iff_exists.1 hsome2
  have hv20 : 0 ≤ v2 := lookupBal_nonneg _ _ _ hnn2 hv2
  constructor
  · exact hI.rate_one
  · show ow.totalSupply = valSum (updBal (updBal (insert0 ow.balances toAddr) frm
      (· - (a : Int))) toAddr (· + (a : Int)))
    have e3 : valSum (updBal (updBal (insert0 ow.balances toAddr) frm (· - (a : Int)))
        toAddr (· + (a : Int))) =
        valSum (updBal (insert0 ow.balances toAddr) frm (· - (a : Int))) +
          ((v2 + (a : Int)) - v2) :=
      valSum_updBal _ _ v2 _ hn2 hv2
    rw [e3, hsum2, valSum_insert0]
    have := hI.supply_sum
    omega
  · exact nonneg_updBal _ _ v2 (· + (a : Int)) hn2 hnn2 hv2
      (by show (0 : Int) ≤ v2 + (a : Int); omega)
  · exact hI.st_nonneg
  · exact hI.backing
  · exact hI.custody_some
  · show (keysOf (updBal (updBal (insert0 ow.balances toAddr) frm (· - (a : Int)))
      toAddr (· + (a : Int)))).Nodup
    rw [keysOf_updBal]
    exact hn2
  · exact hI.st_nodup

theorem inv_wrap (t t1 : StockToken) (ow ow1 : OndoWrappedStock) (frm : String)
    (a : Nat) (hfrm : frm ≠ ow.ticker)
    (h : Wrap ow t frm (a : Int) = .ok (ow1, t1)) (hI : Inv t ow) : Inv t1 ow1 := by
  obtain ⟨b, hb, hba, hr0, rfl, rfl⟩ := Wrap_ok_inv ow ow1 t t1 frm _ h
  have hP : (0 : Int) < basePrecision := by norm_num [basePrecision]
  have ha : (0 : Int) ≤ (a : Int) := Int.natCast_nonneg a
  have hr1 : 1 ≤ ow.exchangeRate := hI.rate_one
  set w : Int := ((a : Int) * basePrecision) / ow.exchangeRate with hw
  have hw0 : 0 ≤ w := by
    rw [hw]
    exact Int.ediv_nonneg (mul_nonneg ha (le_of_lt hP)) (by omega)
  have hwr : w * ow.exchangeRate ≤ (a : Int) * basePrecision := by
    rw [hw]
    exact Int.ediv_mul_le _ (by omega)
  have hg0 : 0 ≤ getOr0 ow.balances frm := getOr0_nonneg _ hI.ow_nonneg _
  have hm1n : (keysOf (insert0 ow.balances frm)).Nodup :=
    nodup_insert0 _ _ hI.ow_nodup
  have hm1nn : ∀ p ∈ insert0 ow.balances frm, 0 ≤ p.2 :=
    nonneg_insert0 _ _ hI.ow_nonneg
  have hm1l : lookupBal (insert0 ow.balances frm) frm =
      some (getOr0 ow.balances frm) := lookupBal_insert0_self _ _
  have hb0 : 0 ≤ b := lookupBal_nonneg _ _ _ hI.st_nonneg hb
  have hs1n : (keysOf (updBal t.balances frm (· - (a : Int)))).Nodup := by
    rw [keysOf_updBal]
    exact hI.st_nodup
  have hs1nn : ∀ p ∈ updBal t.balances frm (· - (a : Int)), 0 ≤ p.2 :=
    nonneg_updBal _ _ b (· - (a : Int)) hI.st_nodup hI.st_nonneg hb
      (by show (0 : Int) ≤ b - (a : Int); omega)
  have hs2n := nodup_insert0 (updBal t.balances frm (· - (a : Int))) ow.ticker hs1n
  have hs2nn := nonneg_insert0 (updBal t.balances frm (· - (a : Int))) ow.ticker hs1nn
  have hs2l : lookupBal (insert0 (updBal t.balances frm (· - (a : Int))) ow.ticker)
      ow.ticker = some (getOr0 (updBal t.balances frm (· - (a : Int))) ow.ticker) :=
    lookupBal_insert0_self _ _
  have hs1g : getOr0 (updBal t.balances frm (· - (a : Int))) ow.ticker =
      getOr0 t.balances ow.ticker := getOr0_updBal_ne _ _ _ _ (fun hc => hfrm hc.symm)
  have hs1g0 : 0 ≤ getOr0 (updBal t.balances frm (· - (a : Int))) ow.ticker :=
    getOr0_nonneg _ hs1nn _
  constructor
  · exact hI.rate_one
  · show ow.totalSupply + w = valSum (updBal (insert0 ow.balances frm) frm (· + w))
    have e : valSum (updBal (insert0 ow.balances frm) frm (· + w)) =
        valSum (insert0 ow.balances frm) +
          ((getOr0 ow.balances frm + w) - getOr0 ow.balances frm) :=
      valSum_updBal _ _ _ _ hm1n hm1l
    rw [e, valSum_insert0]
    have := hI.supply_sum
    omega
  · exact nonneg_updBal _ _ _ (· + w) hm1n hm1nn hm1l
      (by show (0 : Int) ≤ getOr0 ow.balances frm + w; omega)
  · exact nonneg_updBal _ _ _ (· + (a : Int)) hs2n hs2nn hs2l
      (by
        show (0 : Int) ≤ getOr0 (updBal t.balances frm (· - (a : Int))) ow.ticker + (a : Int)
        omega)
  · show (ow.totalSupply + w) * ow.exchangeRate ≤
      getOr0 (updBal (insert0 (updBal t.balances frm (· - (a : Int))) ow.ticker)
        ow.ticker (· + (a : Int))) ow.ticker * basePrecision
    have hgfin : getOr0 (updBal (insert0 (updBal t.balances frm (· - (a : Int)))
        ow.ticker) ow.ticker (· + (a : Int))) ow.ticker =
        getOr0 t.balances ow.ticker + (a : Int) := by
      rw [getOr0_updBal_insert0_self]
      show getOr0 (updBal t.balances frm (· - (a : Int))) ow.ticker + (a : Int) = _
      rw [hs1g]
    rw [hgfin]
    have hbk := hI.backing
    have e1 : (ow.totalSupply + w) * ow.exchangeRate =
        ow.totalSupply * ow.exchangeRate + w * ow.exchangeRate := by ring
    have e2 : (getOr0 t.balances ow.ticker + (a : Int)) * basePrecision =
        getOr0 t.balances ow.ticker * basePrecision + (a : Int) * basePrecision := by
      ring
    rw [e1, e2]
    exact add_le_add hbk hwr
  · intro _
    show (lookupBal (updBal (insert0 (updBal t.balances frm (· - (a : Int)))
      ow.ticker) ow.ticker (· + (a : Int))) ow.ticker).isSome = true
    rw [isSome_lookupBal_updBal, lookupBal_insert0_self]
    rfl
  · show (keysOf (updBal (insert0 ow.balances frm) frm (· + w))).Nodup
    rw [keysOf_updBal]
    exact hm1n
  · show (keysOf (updBal (insert0 (updBal t.balances frm (· - (a : Int)))
      ow.ticker) ow.ticker (· + (a : Int)))).Nodup
    rw [keysOf_updBal]
    exact hs2n

theorem inv_unwrap (t t1 : StockToken) (ow ow1 : OndoWrappedStock) (frm : String)
    (a : Nat) (h : Unwrap ow t frm (a : Int) = .ok (ow1, t1)) (hI : Inv t ow) :
    Inv t1 ow1 := by
  obtain ⟨b, c, d, hb, hba, hc, hd, rfl, rfl⟩ := Unwrap_ok_inv ow ow1 t t1 frm _ h
  have hP : (0 : Int) < basePrecision := by norm_num [basePrecision]
  have ha : (0 : Int) ≤ (a : Int) := Int.natCast_nonneg a
  have hr1 : 1 ≤ ow.exchangeRate := hI.rate_one
  set u : Int := ((a : Int) * ow.exchangeRate) / basePrecision with hu
  have hu0 : 0 ≤ u := by
    rw [hu]
    exact Int.ediv_nonneg (mul_nonneg ha (by omega)) (by omega)
  have huP : u * basePrecision ≤ (a : Int) * ow.exchangeRate := by
    rw [hu]
    exact Int.ediv_mul_le _ (by omega)
  have hb0 : 0 ≤ b := lookupBal_nonneg _ _ _ hI.ow_nonneg hb
  have hbS : b ≤ ow.totalSupply := by
    rw [hI.supply_sum]
    exact lookupBal_le_valSum _ _ _ hI.ow_nonneg hb
  have hcg : getOr0 t.balances ow.ticker = c := by
    unfold getOr0
    rw [hc]
    rfl
  have hc0 : 0 ≤ c := lookupBal_nonneg _ _ _ hI.st_nonneg hc
  have haSr : (a : Int) * ow.exchangeRate ≤ ow.totalSupply * ow.exchangeRate :=
    mul_le_mul_of_nonneg_right (le_trans (by omega) hbS) (by omega)
  have hbk := hI.backing
  rw [hcg] at hbk
  have huc : u ≤ c :=
    le_of_mul_le_mul_right (le_trans huP (le_trans haSr hbk)) hP
  have hs1n : (keysOf (updBal t.balances ow.ticker (· - u))).Nodup := by
    rw [keysOf_updBal]
    exact hI.st_nodup
  have hs1nn : ∀ p ∈ updBal t.balances ow.ticker (· - u), 0 ≤ p.2 :=
    nonneg_updBal _ _ c (· - u) hI.st_nodup hI.st_nonneg hc
      (by show (0 : Int) ≤ c - u; omega)
  have hd0 : 0 ≤ d := lookupBal_nonneg _ _ _ hs1nn hd
  have har0 : 0 ≤ (a : Int) * ow.exchangeRate := mul_nonneg ha (by omega)
  constructor
  · exact hI.rate_one
  · show ow.totalSupply - (a : Int) = valSum (updBal ow.balances frm (· - (a : Int)))
    have e : valSum (updBal ow.balances frm (· - (a : Int))) =
        valSum ow.balances + ((b - (a : Int)) - b) :=
      valSum_updBal _ _ b _ hI.ow_nodup hb
    rw [e]
    have := hI.supply_sum
    omega
  · exact nonneg_updBal _ _ b (· - (a : Int)) hI.ow_nodup hI.ow_nonneg hb
      (by show (0 : Int) ≤ b - (a : Int); omega)
  · exact nonneg_updBal _ _ d (· + u) hs1n hs1nn hd
      (by show (0 : Int) ≤ d + u; omega)
  · show (ow.totalSupply - (a : Int)) * ow.exchangeRate ≤
      getOr0 (updBal (updBal t.balances ow.ticker (· - u)) frm (· + u))
        ow.ticker * basePrecision
    by_cases hft : frm = ow.ticker
    · subst hft
      have hdc : d = c - u := by
        have hlk : lookupBal (updBal t.balances ow.ticker (· - u)) ow.ticker =
            some (c - u) := by
          rw [lookupBal_updBal_self, hc]
          rfl
        rw [hlk] at hd
        exact (Option.some.inj hd).symm
      have hg : getOr0 (updBal (updBal t.balances ow.ticker (· - u)) ow.ticker
          (· + u)) ow.ticker = d + u := getOr0_updBal_some _ _ _ _ hd
      rw [hg, hdc]
      have e1 : (c - u + u) * basePrecision = c * basePrecision := by ring
      have e2 : (ow.totalSupply - (a : Int)) * ow.exchangeRate =
          ow.totalSupply * ow.exchangeRate - (a : Int) * ow.exchangeRate := by ring
      rw [e1, e2]
      linarith [hbk, har0]
    · have hg : getOr0 (updBal (updBal t.balances ow.ticker (· - u)) frm (· + u))
          ow.ticker = getOr0 (updBal t.balances ow.ticker (· - u)) ow.ticker :=
        getOr0_updBal_ne _ _ _ _ (fun hc2 => hft hc2.symm)
      have hg2 : getOr0 (updBal t.balances ow.ticker (· - u)) ow.ticker = c - u :=
        getOr0_updBal_some _ _ _ _ hc
      rw [hg, hg2]
      have e2 : (ow.totalSupply - (a : Int)) * ow.exchangeRate =
          ow.totalSupply * ow.exchangeRate - (a : Int) * ow.exchangeRate := by ring
      have e3 : (c - u) * basePrecision =
          c * basePrecision - u * basePrecision := by ring
      rw [e2, e3]
      linarith [hbk, huP, haSr]
  · intro _
    show (lookupBal (updBal (updBal t.balances ow.ticker (· - u)) frm (· + u))
      ow.ticker).isSome = true
    rw [isSome_lookupBal_updBal, isSome_lookupBal_updBal, hc]
    rfl
  · show (keysOf (updBal ow.balances frm (· - (a : Int)))).Nodup
    rw [keysOf_updBal]
    exact hI.ow_nodup
  · show (keysOf (updBal (updBal t.balances ow.ticker (· - u)) frm (· + u))).Nodup
    rw [keysOf_updBal]
    exact hs1n

theorem inv_claim (t t1 : StockToken) (ow ow1 : OndoWrappedStock)
    (frm toAddr : String) (req : Nat)
    (h : Claim ow t frm toAddr (req : Int) = .ok (ow1, t1)) (hI : Inv t ow) :
    Inv t1 ow1 := by
  obtain ⟨b0, hb0, hun⟩ := Claim_ok_inv ow ow1 t t1 frm toAddr _ h
  obtain ⟨b, c, hb, hba, hc, rfl, rfl⟩ := UnwrapP1_ok_inv ow ow1 t t1 toAddr _ hun
  have hP : (0 : Int) < basePrecision := by norm_num [basePrecision]
  have hr1 : 1 ≤ ow.exchangeRate := hI.rate_one
  have hb00 : 0 ≤ b0 := lookupBal_nonneg _ _ _ hI.ow_nonneg hb0
  set amt : Int := if b0 < (req : Int) then b0 else (req : Int) with hamt
  have hamt0 : 0 ≤ amt := by
    rw [hamt]
    split <;> omega
  set u : Int := (amt * ow.exchangeRate) / basePrecision with hu
  have hu0 : 0 ≤ u := by
    rw [hu]
    exact Int.ediv_nonneg (mul_nonneg hamt0 (by omega)) (by omega)
  have huP : u * basePrecision ≤ amt * ow.exchangeRate := by
    rw [hu]
    exact Int.ediv_mul_le _ (by omega)
  have hb0n : 0 ≤ b := lookupBal_nonneg _ _ _ hI.ow_nonneg hb
  have hbS : b ≤ ow.totalSupply := by
    rw [hI.supply_sum]
    exact lookupBal_le_valSum _ _ _ hI.ow_nonneg hb
  have hcg : getOr0 t.balances ow.ticker = c := by
    unfold getOr0
    rw [hc]
    rfl
  have hc0 : 0 ≤ c := lookupBal_nonneg _ _ _ hI.st_nonneg hc
  have haSr : amt * ow.exchangeRate ≤ ow.totalSupply * ow.exchangeRate :=
    mul_le_mul_of_nonneg_right (le_trans (by omega) hbS) (by omega)
  have hbk := hI.backing
  rw [hcg] at hbk
  have huc : u ≤ c :=
    le_of_mul_le_mul_right (le_trans huP (le_trans haSr hbk)) hP
  have hs1n : (keysOf (updBal t.balances ow.ticker (· - u))).Nodup := by
    rw [keysOf_updBal]
    exact hI.st_nodup
  have hs1nn : ∀ p ∈ updBal t.balances ow.ticker (· - u), 0 ≤ p.2 :=
    nonneg_updBal _ _ c (· - u) hI.st_nodup hI.st_nonneg hc
      (by show (0 : Int) ≤ c - u; omega)
  have hs2n := nodup_insert0 (updBal t.balances ow.ticker (· - u)) toAddr hs1n
  have hs2nn := nonneg_insert0 (updBal t.balances ow.ticker (· - u)) toAddr hs1nn
  have hs2l : lookupBal (insert0 (updBal t.balances ow.ticker (· - u)) toAddr)
      toAddr = some (getOr0 (updBal t.balances ow.ticker (· - u)) toAddr) :=
    lookupBal_insert0_self _ _
  have hs1g0 : 0 ≤ getOr0 (updBal t.balances ow.ticker (· - u)) toAddr :=
    getOr0_nonneg _ hs1nn _
  have hg1 : getOr0 (updBal t.balances ow.ticker (· - u)) ow.ticker = c - u :=
    getOr0_updBal_some _ _ _ _ hc
  have har0 : 0 ≤ amt * ow.exchangeRate := mul_nonneg hamt0 (by omega)
  constructor
  · exact hI.rate_one
  · show ow.totalSupply - amt = valSum (updBal ow.balances "0xCONTRACT" (· - amt))
    have e : valSum (updBal ow.balances "0xCONTRACT" (· - amt)) =
        valSum ow.balances + ((b - amt) - b) :=
      valSum_updBal _ _ b _ hI.ow_nodup hb
    rw [e]
    have := hI.supply_sum
    omega
  · exact nonneg_updBal _ _ b (· - amt) hI.ow_nodup hI.ow_nonneg hb
      (by show (0 : Int) ≤ b - amt; omega)
  · exact nonneg_updBal _ _ _ (· + u) hs2n hs2nn hs2l
      (by
        show (0 : Int) ≤ getOr0 (updBal t.balances ow.ticker (· - u)) toAddr + u
        omega)
  · show (ow.totalSupply - amt) * ow.exchangeRate ≤
      getOr0 (updBal (insert0 (updBal t.balances ow.ticker (· - u)) toAddr)
        toAddr (· + u)) ow.ticker * basePrecision
    by_cases htk : toAddr = ow.ticker
    · subst htk
      have hg : getOr0 (updBal (insert0 (updBal t.balances ow.ticker (· - u))
          ow.ticker) ow.ticker (· + u)) ow.ticker =
          getOr0 (updBal t.balances ow.ticker (· - u)) ow.ticker + u := by
        rw [getOr0_updBal_insert0_self]
      rw [hg, hg1]
      have e1 : (c - u + u) * basePrecision = c * basePrecision := by ring
      have e2 : (ow.totalSupply - amt) * ow.exchangeRate =
          ow.totalSupply * ow.exchangeRate - amt * ow.exchangeRate := by ring
      rw [e1, e2]
      linarith [hbk, har0]
    · have hg : getOr0 (updBal (insert0 (updBal t.balances ow.ticker (· - u))
          toAddr) toAddr (· + u)) ow.ticker =
          getOr0 (updBal t.balances ow.ticker (· - u)) ow.ticker := by
        rw [getOr0_updBal_ne _ _ _ _ (fun hc2 => htk hc2.symm),
          getOr0_insert0_ne _ _ _ (fun hc2 => htk hc2.symm)]
      rw [hg, hg1]
      have e2 : (ow.totalSupply - amt) * ow.exchangeRate =
          ow.totalSupply * ow.exchangeRate - amt * ow.exchangeRate := by ring
      have e3 : (c - u) * basePrecision =
          c * basePrecision - u * basePrecision := by ring
      rw [e2, e3]
      linarith [hbk, huP, haSr]
  · intro _
    show (lookupBal (updBal (insert0 (updBal t.balances ow.ticker (· - u)) toAddr)
      toAddr (· + u)) ow.ticker).isSome = true
    rw [isSome_lookupBal_updBal]
    apply isSome_lookupBal_insert0
    rw [isSome_lookupBal_updBal, hc]
    rfl
  · show (keysOf (updBal ow.balances "0xCONTRACT" (· - amt))).Nodup
    rw [keysOf_updBal]
    exact hI.ow_nodup
  · show (keysOf (updBal (insert0 (updBal t.balances ow.ticker (· - u)) toAddr)
      toAddr (· + u))).Nodup
    rw [keysOf_updBal]
    exact hs2n

theorem inv_rebase (t t1 : StockToken) (ow : OndoWrappedStock)
    (act : RebaseAction) (hact : ActOk act) (h : Rebase t act = .ok t1)
    (hI : Inv t ow) : Inv t1 ow := by
  have hP : (0 : Int) < basePrecision := by norm_num [basePrecision]
  cases act with
  | other =>
    have ht : t1 = t := (Except.ok.inj h).symm
    rw [ht]
    exact hI
  | split m =>
    obtain ⟨hm, hmlt⟩ := hact
    obtain rfl := Rebase_split_ok_inv t t1 m h
    have htm : toInt64 m = (m : Int) := toInt64_eq_of_lt m hmlt
    simp only [htm]
    have hm1 : (1 : Int) ≤ (m : Int) := by exact_mod_cast hm
    have hC0 : 0 ≤ getOr0 t.balances ow.ticker := getOr0_nonneg _ hI.st_nonneg _
    constructor
    · exact hI.rate_one
    · exact hI.supply_sum
    · exact hI.ow_nonneg
    · exact nonneg_mapVals _ _ hI.st_nonneg (fun x hx => mul_nonneg hx (by omega))
    · show ow.totalSupply * ow.exchangeRate ≤
        getOr0 (mapVals t.balances (· * (m : Int))) ow.ticker * basePrecision
      have hg : getOr0 (mapVals t.balances (· * (m : Int))) ow.ticker =
          getOr0 t.balances ow.ticker * (m : Int) :=
        getOr0_mapVals_zero _ _ (by ring) _
      rw [hg]
      have hbk := hI.backing
      have hCP : 0 ≤ getOr0 t.balances ow.ticker * basePrecision :=
        mul_nonneg hC0 (le_of_lt hP)
      have h2 : getOr0 t.balances ow.ticker * basePrecision ≤
          getOr0 t.balances ow.ticker * basePrecision * (m : Int) :=
        le_mul_of_one_le_right hCP hm1
      have e : getOr0 t.balances ow.ticker * (m : Int) * basePrecision =
          getOr0 t.balances ow.ticker * basePrecision * (m : Int) := by ring
      rw [e]
      linarith
    · intro hS
      show (lookupBal (mapVals t.balances (· * (m : Int))) ow.ticker).isSome = true
      rw [isSome_lookupBal_mapVals]
      exact hI.custody_some hS
    · exact hI.ow_nodup
    · show (keysOf (mapVals t.balances (· * (m : Int)))).Nodup
      rw [keysOf_mapVals]
      exact hI.st_nodup
  | dividend cash price =>
    obtain ⟨hcash, hprice⟩ := hact
    obtain ⟨hp0, rfl⟩ := Rebase_dividend_ok_inv t t1 cash price h
    set ratio : Int := (basePrecision * cash) / price with hratio
    have hratio0 : 0 ≤ ratio := by
      rw [hratio]
      exact Int.ediv_nonneg (mul_nonneg (by omega) hcash) (by omega)
    have hf0 : (0 : Int) + ((0 : Int) * ratio) / basePrecision = 0 := by
      norm_num
    have hmono : ∀ x : Int, 0 ≤ x → x ≤ x + (x * ratio) / basePrecision := by
      intro x hx
      have : 0 ≤ (x * ratio) / basePrecision :=
        Int.ediv_nonneg (mul_nonneg hx hratio0) (by omega)
      omega
    constructor
    · exact hI.rate_one
    · exact hI.supply_sum
    · exact hI.ow_nonneg
    · exact nonneg_mapVals _ _ hI.st_nonneg
        (fun x hx => le_trans hx (hmono x hx))
    · show ow.totalSupply * ow.exchangeRate ≤
        getOr0 (mapVals t.balances (fun b => b + (b * ratio) / basePrecision))
          ow.ticker * basePrecision
      have hg : getOr0 (mapVals t.balances
          (fun b => b + (b * ratio) / basePrecision)) ow.ticker =
          getOr0 t.balances ow.ticker +
            (getOr0 t.balances ow.ticker * ratio) / basePrecision :=
        getOr0_mapVals_zero _ _ hf0 _
      rw [hg]
      have hC0 := getOr0_nonneg t.balances hI.st_nonneg ow.ticker
      have hge := hmono _ hC0
      have hbk := hI.backing
      have := mul_le_mul_of_nonneg_right hge (le_of_lt hP)
      linarith
    · intro hS
      show (lookupBal (mapVals t.balances
        (fun b => b + (b * ratio) / basePrecision)) ow.ticker).isSome = true
      rw [isSome_lookupBal_mapVals]
      exact hI.custody_some hS
    · exact hI.ow_nodup
    · show (keysOf (mapVals t.balances
        (fun b => b + (b * ratio) / basePrecision))).Nodup
      rw [keysOf_mapVals]
      exact hI.st_nodup

theorem inv_update (t : StockToken) (ow ow1 : OndoWrappedStock)
    (h : UpdateExchangeRate ow t = .ok ow1) (hI : Inv t ow) : Inv t ow1 := by
  rcases Update_ok_inv ow ow1 t h with ⟨h0, rfl⟩ | ⟨h0, c, hc, rfl⟩
  · exact hI
  · have hP : (0 : Int) < basePrecision := by norm_num [basePrecision]
    have hS0 : 0 ≤ ow.totalSupply := by
      rw [hI.supply_sum]
      exact valSum_nonneg _ hI.ow_nonneg
    have hSpos : 0 < ow.totalSupply := lt_of_le_of_ne hS0 (Ne.symm h0)
    have hcg : getOr0 t.balances ow.ticker = c := by
      unfold getOr0
      rw [hc]
      rfl
    have hbk := hI.backing
    rw [hcg] at hbk
    have hSr : ow.totalSupply ≤ ow.totalSupply * ow.exchangeRate :=
      le_mul_of_one_le_right hS0 hI.rate_one
    have hrate1 : 1 ≤ (c * basePrecision) / ow.totalSupply := by
      rw [Int.le_ediv_iff_mul_le hSpos]
      linarith
    constructor
    · exact hrate1
    · exact hI.supply_sum
    · exact hI.ow_nonneg
    · exact hI.st_nonneg
    · show ow.totalSupply * ((c * basePrecision) / ow.totalSupply) ≤
        getOr0 t.balances ow.ticker * basePrecision
      rw [hcg]
      have hdm := Int.ediv_mul_le (c * basePrecision)
        (show ow.totalSupply ≠ 0 from h0)
      calc ow.totalSupply * ((c * basePrecision) / ow.totalSupply)
          = (c * basePrecision) / ow.totalSupply * ow.totalSupply := by ring
        _ ≤ c * basePrecision := hdm
    · exact hI.custody_some
    · exact hI.ow_nodup
    · exact hI.st_nodup

theorem inv_good_step (s s1 : StockToken × OndoWrappedStock) (h : GoodStep s s1)
    (hI : Inv s.1 s.2) : Inv s1.1 s1.2 := by
  cases h with
  | mint t ow addr shares hs => exact inv_mint t ow addr shares hs hI
  | transfer t ow frm toAddr a ow1 ht => exact inv_transfer t ow ow1 frm toAddr a ht hI
  | wrap t ow frm a ow1 t1 hne hw => exact inv_wrap t t1 ow ow1 frm a hne hw hI
  | unwrap t ow frm a ow1 t1 hu => exact inv_unwrap t t1 ow ow1 frm a hu hI
  | claim t ow frm toAddr a ow1 t1 hcl => exact inv_claim t t1 ow ow1 frm toAddr a hcl hI
  | rebase t ow act t1 hact hr => exact inv_rebase t t1 ow act hact hr hI
  | update t ow ow1 hu => exact inv_update t ow ow1 hu hI

theorem inv_reachable (a b : String) (s : StockToken × OndoWrappedStock)
    (h : Relation.ReflTransGen GoodStep (NewStockToken a, NewOndoWrappedStock b) s) :
    Inv s.1 s.2 := by
  induction h with
  | refl => exact inv_init a b
  | tail hpre hstep ih => exact inv_good_step _ _ hstep ih

/-- C10: invoking the corporate action entry point with an action value
that is neither a split multiplier nor a dividend is a silent no op: the
Rebase type switch falls through, no error is raised, and the ledger
(total supply, rebase multiplier, every balance) is returned unchanged. -/
theorem C10_rebase_other_noop (t : StockToken) : Rebase t .other = .ok t := rfl

/-- C8 counterexample: the Go code converts the uint64 split multiplier
through int64, so at the positive multiplier 2 to the 63 a split
multiplies every balance by minus 2 to the 63 and records that negative
value as the rebase multiplier, not m times the prior balance, refuting
the claim for every positive m. -/
theorem C8_split_cex :
    0 < (9223372036854775808 : Nat) ∧
    Rebase ⟨"TSLA", 1000000, [("A", 1)], 1⟩ (.split 9223372036854775808) =
      .ok ⟨"TSLA", 1000000, [("A", -9223372036854775808)],
        -9223372036854775808⟩ ∧
    (-9223372036854775808 : Int) ≠ ((9223372036854775808 : Nat) : Int) * 1 ∧
    (-9223372036854775808 : Int) ≠ ((9223372036854775808 : Nat) : Int) :=
  ⟨by decide, by rfl, by decide, by decide⟩

/-- C8 (amended): a split by a positive multiplier below 2 to the 63 (a
uint64 value whose int64 conversion keeps its value) replaces every
stored balance with exactly m times its prior value, records m as the
rebase multiplier (not accumulated with the prior one), leaves the total
supply unchanged, and never errors; from 2 to the 63 upward the
conversion wraps and the factor applied is negative. -/
theorem C8_split_exact (t : StockToken) (m : Nat) (hm : 0 < m)
    (hlt : m < 2 ^ 63) :
    ∃ t1, Rebase t (.split m) = .ok t1 ∧
      (∀ a, lookupBal t1.balances a = (lookupBal t.balances a).map (· * (m : Int))) ∧
      t1.rebaseMultiplier = (m : Int) ∧
      t1.totalSupply = t.totalSupply := by
  have ht : toInt64 m = (m : Int) := toInt64_eq_of_lt m hlt
  refine ⟨{ t with
      balances := mapVals t.balances (· * (m : Int)),
      rebaseMultiplier := (m : Int) }, ?_, ?_, rfl, rfl⟩
  · simp only [Rebase, ht]
  · intro a
    exact lookupBal_mapVals t.balances (fun x => x * (m : Int)) a

/-- Witness for the amended C8 at a concrete ledger and the multiplier
two. -/
theorem C8_split_exact_witness :
    0 < 2 ∧ 2 < 2 ^ 63 ∧
    ∃ t1, Rebase ⟨"TSLA", 1000000, [("A", 1000000)], 1⟩ (.split 2) = .ok t1 ∧
      (∀ a, lookupBal t1.balances a =
        (lookupBal (⟨"TSLA", 1000000, [("A", 1000000)], 1⟩ : StockToken).balances a).map
          (· * ((2 : Nat) : Int))) ∧
      t1.rebaseMultiplier = ((2 : Nat) : Int) ∧
      t1.totalSupply = (⟨"TSLA", 1000000, [("A", 1000000)], 1⟩ : StockToken).totalSupply :=
  ⟨by decide, by decide,
    C8_split_exact ⟨"TSLA", 1000000, [("A", 1000000)], 1⟩ 2 (by decide) (by decide)⟩

/-- C5: when a transfer, wrap, unwrap, claim or dividend call fails with
one of the error kinds the spec names (insufficient balance, division by
zero such as a zero share price, or a claim from a non contract address,
that is, any failure other than a nil map entry dereference), the ledger
states carried out of the failed call are exactly the states passed in:
no partial mutation is committed. -/
theorem C5_error_atomicity :
    (∀ ow frm toAddr a e ow1, Transfer ow frm toAddr a = .error (e, ow1) →
      e ≠ .nilDeref → ow1 = ow) ∧
    (∀ ow st frm a e ow1 st1, Wrap ow st frm a = .error (e, ow1, st1) →
      e ≠ .nilDeref → ow1 = ow ∧ st1 = st) ∧
    (∀ ow st frm a e ow1 st1, Unwrap ow st frm a = .error (e, ow1, st1) →
      e ≠ .nilDeref → ow1 = ow ∧ st1 = st) ∧
    (∀ ow st frm toAddr a e ow1 st1, Claim ow st frm toAddr a = .error (e, ow1, st1) →
      e ≠ .nilDeref → ow1 = ow ∧ st1 = st) ∧
    (∀ t cash price e t1, Rebase t (.dividend cash price) = .error (e, t1) → t1 = t) := by
  refine ⟨?_, ?_, ?_, ?_, ?_⟩
  · intro ow frm toAddr a e ow1 h he
    unfold Transfer at h
    split at h
    · injection h with h
      injection h with h1 h2
      exact absurd h1.symm he
    · split at h
      · injection h with h
        injection h with h1 h2
        exact h2.symm
      · cases h
  · intro ow st frm a e ow1 st1 h he
    unfold Wrap at h
    split at h
    · injection h with h
      injection h with h1 h2
      exact absurd h1.symm he
    · split at h
      · injection h with h
        injection h with h1 h2
        injection h2 with h2 h3
        exact ⟨h2.symm, h3.symm⟩
      · split at h
        · injection h with h
          injection h with h1 h2
          injection h2 with h2 h3
          exact ⟨h2.symm, h3.symm⟩
        · cases h
  · intro ow st frm a e ow1 st1 h he
    unfold Unwrap at h
    split at h
    · injection h with h
      injection h with h1 h2
      exact absurd h1.symm he
    · split at h
      · injection h with h
        injection h with h1 h2
        injection h2 with h2 h3
        exact ⟨h2.symm, h3.symm⟩
      · simp only [] at h
        split at h
        · injection h with h
          injection h with h1 h2
          exact absurd h1.symm he
        · split at h
          · injection h with h
            injection h with h1 h2
            exact absurd h1.symm he
          · cases h
  · intro ow st frm toAddr a e ow1 st1 h he
    unfold Claim at h
    split at h
    · injection h with h
      injection h with h1 h2
      injection h2 with h2 h3
      exact ⟨h2.symm, h3.symm⟩
    · split at h
      · injection h with h
        injection h with h1 h2
        exact absurd h1.symm he
      · exact unwrapP1_error_eq ow st toAddr _ e ow1 st1 h he
  · intro t cash price e t1 h
    simp only [Rebase] at h
    split at h
    · injection h with h
      injection h with h1 h2
      exact h2.symm
    · cases h

/-- Witness for C5 at a concrete failing transfer: debiting one raw unit
from an existing zero balance fails with the insufficient balance error
and the wrapper state carried out equals the state passed in. -/
theorem C5_error_atomicity_witness :
    Transfer ⟨"owTSLA", 0, [("A", 0)], 1000000⟩ "A" "B" 1 =
      .error (.insufficientBalance, ⟨"owTSLA", 0, [("A", 0)], 1000000⟩) ∧
    Err.insufficientBalance ≠ Err.nilDeref ∧
    (⟨"owTSLA", 0, [("A", 0)], 1000000⟩ : OndoWrappedStock) =
      ⟨"owTSLA", 0, [("A", 0)], 1000000⟩ :=
  ⟨rfl, by decide,
    C5_error_atomicity.1 ⟨"owTSLA", 0, [("A", 0)], 1000000⟩ "A" "B" 1
      Err.insufficientBalance ⟨"owTSLA", 0, [("A", 0)], 1000000⟩ rfl (by decide)⟩

/-- C2 counterexample: on the empty ledger a dividend has zero balance
entries and zero truncation loss, so the strict bound of the claim, loss
strictly below the number of balance entries, fails at this input. -/
theorem C2_dividend_cex :
    Rebase ⟨"TSLA", 0, [], 1⟩ (.dividend 150 10000) = .ok ⟨"TSLA", 0, [], 1⟩ ∧
    dividendLoss ([] : Balances) ((basePrecision * 150) / 10000) = 0 ∧
    (([] : Balances).length : Int) * basePrecision = 0 ∧
    ¬ dividendLoss ([] : Balances) ((basePrecision * 150) / 10000) <
        (([] : Balances).length : Int) * basePrecision := by
  refine ⟨rfl, rfl, rfl, by decide⟩

/-- C2 (amended): for every dividend with a positive share price applied
to a ledger with at least one balance entry, the distribution replaces
each stored balance b with b plus the floor of b times the floor of scale
times cash over price, over scale; the total supply is not modified; and
the total truncation loss is non negative and strictly less than the
number of balance entries (both sides scaled by the scale factor; on a
ledger with no entries the loss is zero and only the non strict bound
holds). -/
theorem C2_dividend_amended (t : StockToken) (cash price : Int)
    (hp : 0 < price) (hne : 1 ≤ t.balances.length) :
    ∃ t1, Rebase t (.dividend cash price) = .ok t1 ∧
      (∀ a, lookupBal t1.balances a = (lookupBal t.balances a).map
        (fun b => b + (b * ((basePrecision * cash) / price)) / basePrecision)) ∧
      t1.totalSupply = t.totalSupply ∧
      0 ≤ dividendLoss t.balances ((basePrecision * cash) / price) ∧
      dividendLoss t.balances ((basePrecision * cash) / price) <
        (t.balances.length : Int) * basePrecision := by
  have hp0 : ¬ price = 0 := by omega
  refine ⟨_, Rebase_dividend_ok t cash price hp0, ?_, rfl, ?_, ?_⟩
  · intro a
    exact lookupBal_mapVals t.balances
      (fun b => b + (b * ((basePrecision * cash) / price)) / basePrecision) a
  · apply List.sum_nonneg
    intro x hx
    rcases List.mem_map.1 hx with ⟨p, hp2, hpx⟩
    rw [← hpx]
    exact Int.emod_nonneg _ (by norm_num [basePrecision])
  · have hbound : (t.balances.map
        (fun p => (p.2 * ((basePrecision * cash) / price)) % basePrecision)).sum ≤
        (t.balances.map
          (fun p => (p.2 * ((basePrecision * cash) / price)) % basePrecision)).length •
          (basePrecision - 1) := by
      apply List.sum_le_card_nsmul
      intro x hx
      rcases List.mem_map.1 hx with ⟨p, hp2, hpx⟩
      rw [← hpx]
      have := Int.emod_lt_of_pos (p.2 * ((basePrecision * cash) / price))
        (show (0 : Int) < basePrecision by norm_num [basePrecision])
      omega
    rw [List.length_map] at hbound
    unfold dividendLoss
    have hlen : (1 : Int) ≤ (t.balances.length : Int) := by exact_mod_cast hne
    have : (t.balances.length : Int) * (basePrecision - 1) <
        (t.balances.length : Int) * basePrecision := by
      have hbp : (0 : Int) < basePrecision := by norm_num [basePrecision]
      nlinarith
    calc (t.balances.map
        (fun p => (p.2 * ((basePrecision * cash) / price)) % basePrecision)).sum
        ≤ t.balances.length • ((basePrecision : Int) - 1) := hbound
      _ = (t.balances.length : Int) * (basePrecision - 1) := by
          rw [nsmul_eq_mul]
      _ < (t.balances.length : Int) * basePrecision := this

/-- Witness for the amended C2 at a one entry ledger and a dividend of
one dollar fifty at a one hundred dollar share price. -/
theorem C2_dividend_amended_witness :
    (0 : Int) < 10000 ∧
    1 ≤ ([("A", (1000000 : Int))] : Balances).length ∧
    (∃ t1, Rebase ⟨"TSLA", 1000000, [("A", 1000000)], 1⟩ (.dividend 150 10000) =
        .ok t1 ∧
      (∀ a, lookupBal t1.balances a =
        (lookupBal ([("A", (1000000 : Int))] : Balances) a).map
          (fun b => b + (b * ((basePrecision * 150) / 10000)) / basePrecision)) ∧
      t1.totalSupply = (1000000 : Int) ∧
      0 ≤ dividendLoss [("A", (1000000 : Int))] ((basePrecision * 150) / 10000) ∧
      dividendLoss [("A", (1000000 : Int))] ((basePrecision * 150) / 10000) <
        (([("A", (1000000 : Int))] : Balances).length : Int) * basePrecision) :=
  ⟨by decide, by decide,
    C2_dividend_amended ⟨"TSLA", 1000000, [("A", 1000000)], 1⟩ 150 10000
      (by decide) (by decide)⟩

/-- C9: evaluation of the code at the failing inputs.  Debiting from a
never credited address, even with a zero amount, fails with a nil map
entry dereference (the Go code calls Cmp on the nil big.Int a missing map
key yields), not with the insufficient balance error the claim and the
spec require for an absent key read as zero; this holds for wrap, for the
wrapper transfer, and for unwrap. -/
theorem C9_absent_key_nil_deref :
    Wrap (NewOndoWrappedStock "TSLA") (NewStockToken "TSLA") "0xREECE" 0 =
      .error (.nilDeref, NewOndoWrappedStock "TSLA", NewStockToken "TSLA") ∧
    Transfer (NewOndoWrappedStock "TSLA") "0xREECE" "0xOTHER" 0 =
      .error (.nilDeref, NewOndoWrappedStock "TSLA") ∧
    Unwrap (NewOndoWrappedStock "TSLA") (NewStockToken "TSLA") "0xREECE" 0 =
      .error (.nilDeref, NewOndoWrappedStock "TSLA", NewStockToken "TSLA") :=
  ⟨rfl, rfl, rfl⟩

theorem roundtrip_le (a r : Int) (hr : 0 < r) :
    ((a * basePrecision) / r * r) / basePrecision ≤ a := by
  have h1 : (a * basePrecision) / r * r ≤ a * basePrecision :=
    Int.ediv_mul_le _ (by omega)
  have h2 : ((a * basePrecision) / r * r) / basePrecision ≤
      (a * basePrecision) / basePrecision :=
    Int.ediv_le_ediv (by norm_num [basePrecision]) h1
  rwa [Int.mul_ediv_cancel a (by norm_num [basePrecision])] at h2

theorem roundtrip_eq_iff (a r : Int) (hr : 0 < r) :
    ((a * basePrecision) / r * r) / basePrecision = a ↔ r ∣ a * basePrecision := by
  have hP : (0 : Int) < basePrecision := by norm_num [basePrecision]
  constructor
  · intro h
    by_contra hdvd
    have hs0 : 0 ≤ (a * basePrecision) % r := Int.emod_nonneg _ (by omega)
    have hs1 : (a * basePrecision) % r ≠ 0 := fun hc =>
      hdvd (Int.dvd_of_emod_eq_zero hc)
    have hqr : (a * basePrecision) / r * r =
        a * basePrecision - (a * basePrecision) % r := by
      have hde := Int.ediv_add_emod (a * basePrecision) r
      linarith [hde]
    have hmono : (a * basePrecision) / r * r ≤ a * basePrecision - 1 := by omega
    have hle : ((a * basePrecision) / r * r) / basePrecision ≤
        (a * basePrecision - 1) / basePrecision :=
      Int.ediv_le_ediv hP hmono
    have hval : (a * basePrecision - 1) / basePrecision = a - 1 := by
      have hrw : a * basePrecision - 1 =
          (basePrecision - 1) + basePrecision * (a - 1) := by ring
      rw [hrw, Int.add_mul_ediv_left _ _ (by omega : basePrecision ≠ 0),
        Int.ediv_eq_zero_of_lt (by omega) (by omega)]
      omega
    rw [h, hval] at hle
    omega
  · rintro ⟨k, hk⟩
    rw [hk, Int.mul_ediv_cancel_left k (by omega : r ≠ 0), mul_comm k r, ← hk,
      Int.mul_ediv_cancel a (by omega : basePrecision ≠ 0)]

/-- C1 counterexample: with exchange rate two scale factors, wrapping one
raw unit mints zero wrapped units and the round trip returns zero, so
equality with the original amount fails even though the scale factor
divides both intermediate products (one times the scale, and zero times
the rate), refuting the claimed equivalence of equality with divisibility
of the intermediate products by the scale factor. -/
theorem C1_roundtrip_cex :
    Wrap ⟨"owTSLA", 0, [], 2000000⟩ ⟨"TSLA", 1000000, [("A", 1000000)], 1⟩ "A" 1 =
      .ok (⟨"owTSLA", 0, [("A", 0)], 2000000⟩,
           ⟨"TSLA", 1000000, [("A", 999999), ("owTSLA", 1)], 1⟩) ∧
    (1 * basePrecision) / (2000000 : Int) = 0 ∧
    Unwrap ⟨"owTSLA", 0, [("A", 0)], 2000000⟩
        ⟨"TSLA", 1000000, [("A", 999999), ("owTSLA", 1)], 1⟩ "A" 0 =
      .ok (⟨"owTSLA", 0, [("A", 0)], 2000000⟩,
           ⟨"TSLA", 1000000, [("A", 999999), ("owTSLA", 1)], 1⟩) ∧
    basePrecision ∣ (1 : Int) * basePrecision ∧
    basePrecision ∣ (0 : Int) * 2000000 ∧
    lookupBal [("A", (999999 : Int)), ("owTSLA", 1)] "A" = some 999999 ∧
    (999999 : Int) ≠ 1000000 - 1 + 1 := by
  refine ⟨rfl, rfl, rfl, ⟨1, by norm_num [basePrecision]⟩, ⟨0, by norm_num⟩, rfl, by decide⟩

/-- C1 (amended): for every wrapper state with exchange rate at least one
and a non negative wrapper balance for the sender, every stock state in
which the sender (distinct from the custody address) has balance b, and
every amount a at most b, wrapping a and then unwrapping the minted
amount succeeds and returns floor(floor(a*scale/rate)*rate/scale) to the
sender, which never exceeds a, the round trip loss is non negative, and
the returned amount equals a exactly when the exchange rate divides the
intermediate product a*scale (not, as the claim states it, when the scale
factor divides the intermediate products). -/
theorem C1_roundtrip_amended (ow : OndoWrappedStock) (st : StockToken)
    (frm : String) (a b : Int) (hb : lookupBal st.balances frm = some b)
    (hab : a ≤ b) (hr : 1 ≤ ow.exchangeRate)
    (ho : 0 ≤ getOr0 ow.balances frm) (hft : frm ≠ ow.ticker) :
    ∃ ow1 st1 ow2 st2,
      Wrap ow st frm a = .ok (ow1, st1) ∧
      Unwrap ow1 st1 frm ((a * basePrecision) / ow.exchangeRate) = .ok (ow2, st2) ∧
      lookupBal st2.balances frm = some (b - a +
        ((a * basePrecision) / ow.exchangeRate * ow.exchangeRate) / basePrecision) ∧
      ((a * basePrecision) / ow.exchangeRate * ow.exchangeRate) / basePrecision ≤ a ∧
      0 ≤ a - ((a * basePrecision) / ow.exchangeRate * ow.exchangeRate) / basePrecision ∧
      (((a * basePrecision) / ow.exchangeRate * ow.exchangeRate) / basePrecision = a ↔
        ow.exchangeRate ∣ a * basePrecision) := by
  have hr0 : ¬ ow.exchangeRate = 0 := by omega
  have hba : ¬ b < a := by omega
  set w : Int := (a * basePrecision) / ow.exchangeRate with hw
  set u : Int := (w * ow.exchangeRate) / basePrecision with hu
  set ow1 : OndoWrappedStock :=
    { ow with balances := updBal (insert0 ow.balances frm) frm (· + w),
              totalSupply := ow.totalSupply + w } with how1
  set st1 : StockToken :=
    { st with
      balances :=
        updBal (insert0 (updBal st.balances frm (· - a)) ow.ticker) ow.ticker
          (· + a) } with hst1
  have hwrap : Wrap ow st frm a = .ok (ow1, st1) := Wrap_ok ow st frm a b hb hba hr0
  have hticker : ow1.ticker = ow.ticker := by rw [how1]
  have hrate : ow1.exchangeRate = ow.exchangeRate := by rw [how1]
  have hob : lookupBal ow1.balances frm = some (getOr0 ow.balances frm + w) := by
    rw [how1]
    show lookupBal (updBal (insert0 ow.balances frm) frm (· + w)) frm = _
    rw [lookupBal_updBal_self, lookupBal_insert0_self]
    rfl
  have hbw : ¬ (getOr0 ow.balances frm + w < w) := by omega
  have hc : lookupBal st1.balances ow1.ticker =
      some (getOr0 (updBal st.balances frm (· - a)) ow.ticker + a) := by
    rw [hst1, hticker]
    show lookupBal (updBal
      (insert0 (updBal st.balances frm (· - a)) ow.ticker) ow.ticker
      (· + a)) ow.ticker = _
    rw [lookupBal_updBal_self, lookupBal_insert0_self]
    rfl
  have hd : lookupBal st1.balances frm = some (b - a) := by
    rw [hst1]
    show lookupBal (updBal
      (insert0 (updBal st.balances frm (· - a)) ow.ticker) ow.ticker
      (· + a)) frm = _
    rw [lookupBal_updBal_ne _ _ _ _ hft, lookupBal_insert0_ne _ _ _ hft,
      lookupBal_updBal_self, hb]
    rfl
  have hftt : frm ≠ ow1.ticker := by rw [hticker]; exact hft
  have hunwrap := Unwrap_ok ow1 st1 frm w (getOr0 ow.balances frm + w)
    (getOr0 (updBal st.balances frm (· - a)) ow.ticker + a) (b - a)
    hob hbw hc hftt hd
  rw [hrate, ← hu] at hunwrap
  refine ⟨ow1, st1, _, _, hwrap, hunwrap, ?_, ?_, ?_, ?_⟩
  · show lookupBal (updBal (updBal st1.balances ow1.ticker (· - u)) frm (· + u)) frm = _
    rw [lookupBal_updBal_self, hticker, lookupBal_updBal_ne _ _ _ _ hft, hd]
    rfl
  · rw [hu, hw]
    exact roundtrip_le a ow.exchangeRate (by omega)
  · have := roundtrip_le a ow.exchangeRate (by omega)
    rw [hu, hw]
    omega
  · rw [hu, hw]
    exact roundtrip_eq_iff a ow.exchangeRate (by omega)

/-- Witness for the amended C1 round trip at the initial one to one rate
with a single minted holder. -/
theorem C1_roundtrip_amended_witness :
    lookupBal [("A", (10000000 : Int))] "A" = some 10000000 ∧
    (3 : Int) ≤ 10000000 ∧
    (1 : Int) ≤ 1000000 ∧
    (0 : Int) ≤ getOr0 ([] : Balances) "A" ∧
    "A" ≠ "owTSLA" ∧
    (∃ ow1 st1 ow2 st2,
      Wrap ⟨"owTSLA", 0, [], 1000000⟩ ⟨"TSLA", 10000000, [("A", 10000000)], 1⟩ "A" 3 =
        .ok (ow1, st1) ∧
      Unwrap ow1 st1 "A" ((3 * basePrecision) / (1000000 : Int)) = .ok (ow2, st2) ∧
      lookupBal st2.balances "A" = some (10000000 - 3 +
        ((3 * basePrecision) / (1000000 : Int) * 1000000) / basePrecision) ∧
      ((3 * basePrecision) / (1000000 : Int) * 1000000) / basePrecision ≤ 3 ∧
      (0 : Int) ≤ 3 - ((3 * basePrecision) / (1000000 : Int) * 1000000) / basePrecision ∧
      (((3 * basePrecision) / (1000000 : Int) * 1000000) / basePrecision = 3 ↔
        (1000000 : Int) ∣ 3 * basePrecision)) := by
  refine ⟨rfl, by decide, by decide, by decide, by decide, ?_⟩
  exact C1_roundtrip_amended ⟨"owTSLA", 0, [], 1000000⟩
    ⟨"TSLA", 10000000, [("A", 10000000)], 1⟩ "A" 3 10000000 rfl (by decide)
    (by decide) (by decide) (by decide)

/-- C7 counterexample: unwrapping one unit from a holder with no wrapper
balance entry (a zero balance under the absent key convention of the
spec) fails with a nil dereference, not with the insufficient balance
error the claim requires for every shortfall. -/
theorem C7_unwrap_cex :
    getOr0 ([] : Balances) "A" < 1 ∧
    Unwrap ⟨"owTSLA", 0, [], 1000000⟩ ⟨"TSLA", 0, [], 1⟩ "A" 1 =
      .error (.nilDeref, ⟨"owTSLA", 0, [], 1000000⟩, ⟨"TSLA", 0, [], 1⟩) ∧
    Err.nilDeref ≠ Err.insufficientBalance :=
  ⟨by decide, rfl, by decide⟩

/-- C7 (amended): for a holder with an existing wrapper balance entry b
and a state in which the custody and holder entries of the stock ledger
exist (holder distinct from the custody address), unwrap fails with the
insufficient balance error and no mutation when b is below the amount,
and otherwise succeeds, burning the amount from the holder and from the
wrapper supply and moving floor(amount*rate/scale) underlying units from
the custody entry to the holder entry. -/
theorem C7_unwrap_amended (ow : OndoWrappedStock) (st : StockToken)
    (frm : String) (a b c d : Int)
    (hb : lookupBal ow.balances frm = some b)
    (hc : lookupBal st.balances ow.ticker = some c)
    (hd : lookupBal st.balances frm = some d)
    (hft : frm ≠ ow.ticker) :
    (b < a → Unwrap ow st frm a = .error (.insufficientBalance, ow, st)) ∧
    (¬ b < a → ∃ ow1 st1, Unwrap ow st frm a = .ok (ow1, st1) ∧
      lookupBal ow1.balances frm = some (b - a) ∧
      ow1.totalSupply = ow.totalSupply - a ∧
      lookupBal st1.balances ow.ticker =
        some (c - (a * ow.exchangeRate) / basePrecision) ∧
      lookupBal st1.balances frm =
        some (d + (a * ow.exchangeRate) / basePrecision)) := by
  constructor
  · intro hba
    simp only [Unwrap, hb, if_pos hba]
  · intro hba
    have hun := Unwrap_ok ow st frm a b c d hb hba hc hft hd
    refine ⟨_, _, hun, ?_, rfl, ?_, ?_⟩
    · show lookupBal (updBal ow.balances frm (· - a)) frm = _
      rw [lookupBal_updBal_self, hb]
      rfl
    · show lookupBal (updBal
        (updBal st.balances ow.ticker (· - (a * ow.exchangeRate) / basePrecision))
        frm (· + (a * ow.exchangeRate) / basePrecision)) ow.ticker = _
      rw [lookupBal_updBal_ne _ _ _ _ (fun hc2 => hft hc2.symm),
        lookupBal_updBal_self, hc]
      rfl
    · show lookupBal (updBal
        (updBal st.balances ow.ticker (· - (a * ow.exchangeRate) / basePrecision))
        frm (· + (a * ow.exchangeRate) / basePrecision)) frm = _
      rw [lookupBal_updBal_self, lookupBal_updBal_ne _ _ _ _ hft, hd]
      rfl

/-- Witness for the amended C7 at a concrete state, both for the failing
and for the succeeding direction. -/
theorem C7_unwrap_amended_witness :
    lookupBal [("A", (5 : Int))] "A" = some 5 ∧
    lookupBal [("owTSLA", (7 : Int)), ("A", 2)] "owTSLA" = some 7 ∧
    lookupBal [("owTSLA", (7 : Int)), ("A", 2)] "A" = some 2 ∧
    "A" ≠ "owTSLA" ∧
    (((5 : Int) < 3 →
      Unwrap ⟨"owTSLA", 5, [("A", 5)], 2000000⟩
          ⟨"TSLA", 9, [("owTSLA", 7), ("A", 2)], 1⟩ "A" 3 =
        .error (.insufficientBalance, ⟨"owTSLA", 5, [("A", 5)], 2000000⟩,
          ⟨"TSLA", 9, [("owTSLA", 7), ("A", 2)], 1⟩)) ∧
    (¬ (5 : Int) < 3 → ∃ ow1 st1,
      Unwrap ⟨"owTSLA", 5, [("A", 5)], 2000000⟩
          ⟨"TSLA", 9, [("owTSLA", 7), ("A", 2)], 1⟩ "A" 3 = .ok (ow1, st1) ∧
      lookupBal ow1.balances "A" = some (5 - 3) ∧
      ow1.totalSupply = (5 : Int) - 3 ∧
      lookupBal st1.balances "owTSLA" = some (7 - (3 * 2000000) / basePrecision) ∧
      lookupBal st1.balances "A" = some (2 + (3 * 2000000) / basePrecision))) := by
  refine ⟨rfl, rfl, rfl, by decide, ?_⟩
  exact C7_unwrap_amended ⟨"owTSLA", 5, [("A", 5)], 2000000⟩
    ⟨"TSLA", 9, [("owTSLA", 7), ("A", 2)], 1⟩ "A" 3 5 7 2 rfl rfl rfl (by decide)

/-- C4 counterexample: on fresh ledgers the custody address has no
wrapper balance entry, and a claim from it fails with a nil dereference
(the Go clamp branch formats the nil big.Int), refuting the part of the
claim that says a claim from the custody address never fails. -/
theorem C4_claim_cex :
    Claim (NewOndoWrappedStock "TSLA") (NewStockToken "TSLA") "0xCONTRACT" "A" 1 =
      .error (.nilDeref, NewOndoWrappedStock "TSLA", NewStockToken "TSLA") := rfl

/-- C4 (amended): when the custody address has an existing wrapper
balance entry b, the custody entry of the stock ledger exists, the
exchange rate is non negative, and the recipient is not the custody
address, a claim from the custody address never fails for any requested
amount: a request above b is clamped down to exactly b, the clamped
amount is burned from the custody wrapper balance and the wrapper
supply, and the recipient receives the unwrapped value of the clamped
amount, which never exceeds the unwrapped value of the full custody
balance b. -/
theorem C4_claim_amended (ow : OndoWrappedStock) (st : StockToken)
    (toAddr : String) (req b c : Int)
    (hb : lookupBal ow.balances "0xCONTRACT" = some b)
    (hc : lookupBal st.balances ow.ticker = some c)
    (hr : 0 ≤ ow.exchangeRate) (htick : toAddr ≠ ow.ticker) :
    ∃ ow1 st1, Claim ow st "0xCONTRACT" toAddr req = .ok (ow1, st1) ∧
      (b < req → (if b < req then b else req) = b) ∧
      lookupBal ow1.balances "0xCONTRACT" =
        some (b - (if b < req then b else req)) ∧
      ow1.totalSupply = ow.totalSupply - (if b < req then b else req) ∧
      getOr0 st1.balances toAddr = getOr0 st.balances toAddr +
        ((if b < req then b else req) * ow.exchangeRate) / basePrecision ∧
      ((if b < req then b else req) * ow.exchangeRate) / basePrecision ≤
        (b * ow.exchangeRate) / basePrecision := by
  have hP : (0 : Int) < basePrecision := by norm_num [basePrecision]
  set amt : Int := if b < req then b else req with hamt
  have hba : ¬ b < amt := by
    rw [hamt]
    by_cases h : b < req
    · rw [if_pos h]
      omega
    · rw [if_neg h]
      omega
  have hclaim : Claim ow st "0xCONTRACT" toAddr req = UnwrapP1 ow st toAddr amt := by
    simp only [Claim, hb]
    rw [if_neg (by decide)]
  have hun := UnwrapP1_ok ow st toAddr amt b c hb hba hc
  rw [hun] at hclaim
  refine ⟨_, _, hclaim, fun h => by rw [hamt, if_pos h], ?_, rfl, ?_, ?_⟩
  · show lookupBal (updBal ow.balances "0xCONTRACT" (· - amt)) "0xCONTRACT" = _
    rw [lookupBal_updBal_self, hb]
    rfl
  · show getOr0 (updBal (insert0
      (updBal st.balances ow.ticker (· - (amt * ow.exchangeRate) / basePrecision))
      toAddr) toAddr (· + (amt * ow.exchangeRate) / basePrecision)) toAddr = _
    rw [getOr0_updBal_insert0_self, getOr0_updBal_ne _ _ _ _ htick]
  · have hmul : amt * ow.exchangeRate ≤ b * ow.exchangeRate := by
      have : amt ≤ b := by omega
      exact mul_le_mul_of_nonneg_right this hr
    exact Int.ediv_le_ediv hP hmul

/-- Witness for the amended C4: requesting five units when only three are
in custody clamps the claim down to three. -/
theorem C4_claim_amended_witness :
    lookupBal [("0xCONTRACT", (3 : Int))] "0xCONTRACT" = some 3 ∧
    lookupBal [("owTSLA", (3 : Int))] "owTSLA" = some 3 ∧
    (0 : Int) ≤ 1000000 ∧
    "B" ≠ "owTSLA" ∧
    (∃ ow1 st1,
      Claim ⟨"owTSLA", 3, [("0xCONTRACT", 3)], 1000000⟩
          ⟨"TSLA", 3, [("owTSLA", 3)], 1⟩ "0xCONTRACT" "B" 5 = .ok (ow1, st1) ∧
      ((3 : Int) < 5 → (if (3 : Int) < 5 then (3 : Int) else 5) = 3) ∧
      lookupBal ow1.balances "0xCONTRACT" =
        some (3 - (if (3 : Int) < 5 then (3 : Int) else 5)) ∧
      ow1.totalSupply = (3 : Int) - (if (3 : Int) < 5 then (3 : Int) else 5) ∧
      getOr0 st1.balances "B" = getOr0 [("owTSLA", (3 : Int))] "B" +
        ((if (3 : Int) < 5 then (3 : Int) else 5) * 1000000) / basePrecision ∧
      ((if (3 : Int) < 5 then (3 : Int) else 5) * 1000000) / basePrecision ≤
        ((3 : Int) * 1000000) / basePrecision) := by
  refine ⟨rfl, rfl, by decide, by decide, ?_⟩
  exact C4_claim_amended ⟨"owTSLA", 3, [("0xCONTRACT", 3)], 1000000⟩
    ⟨"TSLA", 3, [("owTSLA", 3)], 1⟩ "B" 5 3 3 rfl rfl (by decide) (by decide)

theorem Interact_contract (t : StockToken) (ows : OndoWrappedStock)
    (frm toAddr : String) (a : Int) (h : hasContractMarker toAddr = true) :
    Interact t frm toAddr a ows =
      match Wrap ows t frm a with
      | .error (e, ow1, st1) => .error (e, st1, ow1)
      | .ok (ow1, st1) =>
        match Transfer ow1 frm toAddr ((a * basePrecision) / ows.exchangeRate) with
        | .error (e, ow2) => .error (e, st1, ow2)
        | .ok ow2 => .ok (st1, ow2) := by
  unfold Interact
  rw [h]
  rfl

theorem insert0_of_isSome (l : Balances) (k : String)
    (h : (lookupBal l k).isSome = true) : insert0 l k = l := by
  unfold insert0
  rw [h]
  rfl

theorem Interact_regular (t : StockToken) (ows : OndoWrappedStock)
    (frm toAddr : String) (a b : Int) (h : hasContractMarker toAddr = false)
    (hb : lookupBal t.balances frm = some b) :
    Interact t frm toAddr a ows =
      match STransfer t frm toAddr a with
      | .ok t1 => .ok (t1, ows)
      | .error (e, t1) => .error (e, t1, ows) := by
  have hg : getOr0 t.balances frm = b := by
    unfold getOr0
    rw [hb]
    rfl
  have hins : insert0 t.balances frm = t.balances :=
    insert0_of_isSome t.balances frm (by rw [hb]; rfl)
  unfold Interact STransfer
  rw [h]
  simp only [Bool.false_eq_true, if_false, hb, hg, hins]
  by_cases hba : b < a
  · simp [hba]
  · simp [hba]

/-- C6 counterexample, two divergences from the claim.  First, when the
sender and the contract marked recipient are the same address, interact
wraps and transfers back to the sender, so the sender wrapper balance
grows by the minted amount instead of being net unchanged.  Second, on a
recipient without the marker interact does not behave exactly as the
transfer of the spec: a sender with no ledger entry makes interact
dereference a nil map entry, while the transfer contract of the spec
(absent key read as zero) lets a zero amount move and succeed. -/
theorem C6_interact_cex :
    hasContractMarker "0xCONTRACT" = true ∧
    Interact ⟨"TSLA", 1000000, [("0xCONTRACT", 1000000)], 1⟩ "0xCONTRACT"
        "0xCONTRACT" 1000000 ⟨"owTSLA", 0, [], 1000000⟩ =
      .ok (⟨"TSLA", 1000000, [("0xCONTRACT", 0), ("owTSLA", 1000000)], 1⟩,
           ⟨"owTSLA", 1000000, [("0xCONTRACT", 1000000)], 1000000⟩) ∧
    getOr0 [("0xCONTRACT", (1000000 : Int))] "0xCONTRACT" ≠
      getOr0 ([] : Balances) "0xCONTRACT" ∧
    hasContractMarker "B" = false ∧
    Interact ⟨"TSLA", 0, [], 1⟩ "A" "B" 0 ⟨"owTSLA", 0, [], 1000000⟩ =
      .error (.nilDeref, ⟨"TSLA", 0, [], 1⟩, ⟨"owTSLA", 0, [], 1000000⟩) ∧
    STransfer ⟨"TSLA", 0, [], 1⟩ "A" "B" 0 =
      .ok ⟨"TSLA", 0, [("A", 0), ("B", 0)], 1⟩ := by
  refine ⟨rfl, rfl, by decide, by decide, rfl, rfl⟩

/-- C6 (amended): when the recipient carries the reserved contract
marker and is distinct from the sender, the sender (distinct from the
custody address) has stock balance b at least the non clamped amount a,
the exchange rate is at least one and the sender wrapper balance is non
negative, interact wraps a and transfers exactly the minted amount
floor(a*scale/rate) to the recipient inside the wrapper ledger, leaving
the sender wrapper balance net unchanged; when the recipient does not
carry the marker and the sender has an existing ledger entry, interact
is exactly the transfer contract of the spec on the stock ledger with
the wrapper state untouched (on a sender with no entry the code instead
dereferences a nil map entry, the absent key bug). -/
theorem C6_interact_amended (t : StockToken) (ow : OndoWrappedStock)
    (frm toAddr : String) (a b : Int) :
    (hasContractMarker toAddr = true →
      lookupBal t.balances frm = some b → a ≤ b → 1 ≤ ow.exchangeRate →
      0 ≤ getOr0 ow.balances frm → frm ≠ toAddr → frm ≠ ow.ticker →
      ∃ t1 ow1, Interact t frm toAddr a ow = .ok (t1, ow1) ∧
        getOr0 ow1.balances frm = getOr0 ow.balances frm ∧
        getOr0 ow1.balances toAddr =
          getOr0 ow.balances toAddr + (a * basePrecision) / ow.exchangeRate ∧
        ow1.totalSupply = ow.totalSupply + (a * basePrecision) / ow.exchangeRate ∧
        ow1.exchangeRate = ow.exchangeRate ∧
        lookupBal t1.balances frm = some (b - a) ∧
        getOr0 t1.balances ow.ticker = getOr0 t.balances ow.ticker + a) ∧
    (hasContractMarker toAddr = false →
      lookupBal t.balances frm = some b →
      Interact t frm toAddr a ow =
        match STransfer t frm toAddr a with
        | .ok t1 => .ok (t1, ow)
        | .error (e, t1) => .error (e, t1, ow)) := by
  constructor
  · intro hto hb hab hr ho hftto hftick
    have hr0 : ¬ ow.exchangeRate = 0 := by omega
    set w : Int := (a * basePrecision) / ow.exchangeRate with hw
    set ow1 : OndoWrappedStock :=
      { ow with balances := updBal (insert0 ow.balances frm) frm (· + w),
                totalSupply := ow.totalSupply + w } with how1
    set st1 : StockToken :=
      { t with
        balances :=
          updBal (insert0 (updBal t.balances frm (· - a)) ow.ticker) ow.ticker
            (· + a) } with hst1
    have hwrap : Wrap ow t frm a = .ok (ow1, st1) :=
      Wrap_ok ow t frm a b hb (by omega) hr0
    have hob : lookupBal ow1.balances frm = some (getOr0 ow.balances frm + w) := by
      rw [how1]
      show lookupBal (updBal (insert0 ow.balances frm) frm (· + w)) frm = _
      rw [lookupBal_updBal_self, lookupBal_insert0_self]
      rfl
    have htrans := Transfer_ok ow1 frm toAddr w (getOr0 ow.balances frm + w)
      hob (by omega)
    set ow2 : OndoWrappedStock :=
      { ow1 with
        balances :=
          updBal (updBal (insert0 ow1.balances toAddr) frm (· - w)) toAddr
            (· + w) } with how2
    have hint : Interact t frm toAddr a ow = .ok (st1, ow2) := by
      rw [Interact_contract t ow frm toAddr a hto]
      rw [← hw]
      simp only [hwrap, htrans]
    have hlkfrm : lookupBal (insert0 ow1.balances toAddr) frm =
        some (getOr0 ow.balances frm + w) := by
      rw [lookupBal_insert0_ne _ _ _ hftto, hob]
    have hlktoAddr : lookupBal (updBal (insert0 ow1.balances toAddr) frm (· - w))
        toAddr = some (getOr0 ow1.balances toAddr) := by
      rw [lookupBal_updBal_ne _ _ _ _ (fun hc => hftto hc.symm),
        lookupBal_insert0_self]
    refine ⟨st1, ow2, hint, ?_, ?_, ?_, rfl, ?_, ?_⟩
    · rw [how2]
      show getOr0 (updBal (updBal (insert0 ow1.balances toAddr) frm (· - w))
        toAddr (· + w)) frm = _
      rw [getOr0_updBal_ne _ _ _ _ hftto, getOr0_updBal_some _ _ _ _ hlkfrm]
      omega
    · rw [how2]
      show getOr0 (updBal (updBal (insert0 ow1.balances toAddr) frm (· - w))
        toAddr (· + w)) toAddr = _
      rw [getOr0_updBal_some _ _ _ _ hlktoAddr, how1]
      show getOr0 (updBal (insert0 ow.balances frm) frm (· + w)) toAddr + w = _
      rw [getOr0_updBal_ne _ _ _ _ (fun hc => hftto hc.symm),
        getOr0_insert0_ne _ _ _ (fun hc => hftto hc.symm)]
    · rw [how2, how1]
    · rw [hst1]
      show lookupBal (updBal
        (insert0 (updBal t.balances frm (· - a)) ow.ticker) ow.ticker
        (· + a)) frm = _
      rw [lookupBal_updBal_ne _ _ _ _ hftick, lookupBal_insert0_ne _ _ _ hftick,
        lookupBal_updBal_self, hb]
      rfl
    · rw [hst1]
      show getOr0 (updBal
        (insert0 (updBal t.balances frm (· - a)) ow.ticker) ow.ticker
        (· + a)) ow.ticker = _
      rw [getOr0_updBal_insert0_self,
        getOr0_updBal_ne _ _ _ _ (fun hc => hftick hc.symm)]
  · intro hto hb2
    exact Interact_regular t ow frm toAddr a b hto hb2

/-- Witness for the amended C6: the end to end scenario of the spec,
minting ten shares and sending five through interact to the contract
address at the one to one rate. -/
theorem C6_interact_amended_witness :
    hasContractMarker "0xCONTRACT" = true ∧
    lookupBal [("0xREECE", (10000000 : Int))] "0xREECE" = some 10000000 ∧
    (5000000 : Int) ≤ 10000000 ∧
    (1 : Int) ≤ 1000000 ∧
    (0 : Int) ≤ getOr0 ([] : Balances) "0xREECE" ∧
    "0xREECE" ≠ "0xCONTRACT" ∧
    "0xREECE" ≠ "owTSLA" ∧
    (∃ t1 ow1,
      Interact ⟨"TSLA", 10000000, [("0xREECE", 10000000)], 1⟩ "0xREECE"
          "0xCONTRACT" 5000000 ⟨"owTSLA", 0, [], 1000000⟩ = .ok (t1, ow1) ∧
      getOr0 ow1.balances "0xREECE" = getOr0 ([] : Balances) "0xREECE" ∧
      getOr0 ow1.balances "0xCONTRACT" = getOr0 ([] : Balances) "0xCONTRACT" +
        (5000000 * basePrecision) / (1000000 : Int) ∧
      ow1.totalSupply = (0 : Int) + (5000000 * basePrecision) / (1000000 : Int) ∧
      ow1.exchangeRate = (1000000 : Int) ∧
      lookupBal t1.balances "0xREECE" = some (10000000 - 5000000) ∧
      getOr0 t1.balances "owTSLA" =
        getOr0 [("0xREECE", (10000000 : Int))] "owTSLA" + 5000000) := by
  refine ⟨rfl, rfl, by decide, by decide, by decide, by decide, by decide, ?_⟩
  exact (C6_interact_amended ⟨"TSLA", 10000000, [("0xREECE", 10000000)], 1⟩
    ⟨"owTSLA", 0, [], 1000000⟩ "0xREECE" "0xCONTRACT" 5000000 10000000).1
    rfl rfl (by decide) (by decide) (by decide) (by decide) (by decide)

/-- C3 counterexample, three reachable states with exchange rate zero or
negative.  The first chain applies mint, wrap, a dividend with negative
cash (a value the Go Dividend struct accepts) and an update, which
zeroes every balance and then the rate.  The second chain uses no
corporate action at all: it mints to the custody address and repeatedly
wraps from the custody address (a net zero move of the custody stock
entry that still mints wrapped supply) with rate updates in between,
until the floor in the update reaches zero.  The third chain mints a
share count of 2 to the 63: the int64 conversion in mint credits a
negative amount to the custody stock entry, and the next update makes
the rate negative.  All three refute strict positivity of the exchange
rate over all reachable states. -/
theorem C3_rate_cex :
    ((Relation.ReflTransGen Step (NewStockToken "TSLA", NewOndoWrappedStock "TSLA")
       (⟨"TSLA", 1000000, [("A", 0), ("owTSLA", 0)], 1⟩,
        ⟨"owTSLA", 1000000, [("A", 1000000)], 0⟩) ∧
     (⟨"owTSLA", 1000000, [("A", 1000000)], 0⟩ : OndoWrappedStock).exchangeRate = 0) ∧
    (Relation.ReflTransGen Step (NewStockToken "TSLA", NewOndoWrappedStock "TSLA")
       (⟨"TSLA", 1000000, [("owTSLA", 1000000)], 1⟩,
        ⟨"owTSLA", 1608976828614, [("owTSLA", 1608976828614)], 0⟩) ∧
     (⟨"owTSLA", 1608976828614, [("owTSLA", 1608976828614)], 0⟩ : OndoWrappedStock).exchangeRate = 0)) ∧
    (Relation.ReflTransGen Step (NewStockToken "TSLA", NewOndoWrappedStock "TSLA")
       (⟨"TSLA", -9223372036854775807000000,
          [("A", 0), ("owTSLA", -9223372036854775807000000)], 1⟩,
        ⟨"owTSLA", 1000000, [("A", 1000000)], -9223372036854775807000000⟩) ∧
     (⟨"owTSLA", 1000000, [("A", 1000000)],
        -9223372036854775807000000⟩ : OndoWrappedStock).exchangeRate < 0) := by
  refine ⟨⟨?_, ?_⟩, ?_⟩
  · constructor
    · refine Relation.ReflTransGen.head
        (Step.mint (NewStockToken "TSLA") (NewOndoWrappedStock "TSLA") "A" 1) ?_
      refine Relation.ReflTransGen.head
        (Step.wrap (⟨"TSLA", 1000000, [("A", 1000000)], 1⟩ : StockToken)
          (NewOndoWrappedStock "TSLA") "A" 1000000
          (⟨"owTSLA", 1000000, [("A", 1000000)], 1000000⟩ : OndoWrappedStock)
          (⟨"TSLA", 1000000, [("A", 0), ("owTSLA", 1000000)], 1⟩ : StockToken) (by rfl)) ?_
      refine Relation.ReflTransGen.head
        (Step.rebase (⟨"TSLA", 1000000, [("A", 0), ("owTSLA", 1000000)], 1⟩ : StockToken)
          (⟨"owTSLA", 1000000, [("A", 1000000)], 1000000⟩ : OndoWrappedStock)
          (.dividend (-100) 100)
          (⟨"TSLA", 1000000, [("A", 0), ("owTSLA", 0)], 1⟩ : StockToken) (by rfl)) ?_
      exact Relation.ReflTransGen.single
        (Step.update (⟨"TSLA", 1000000, [("A", 0), ("owTSLA", 0)], 1⟩ : StockToken)
          (⟨"owTSLA", 1000000, [("A", 1000000)], 1000000⟩ : OndoWrappedStock)
          (⟨"owTSLA", 1000000, [("A", 1000000)], 0⟩ : OndoWrappedStock) (by rfl))
    · rfl
  · constructor
    · refine Relation.ReflTransGen.head
        (Step.mint (NewStockToken "TSLA") (NewOndoWrappedStock "TSLA") "owTSLA" 1) ?_
      refine Relation.ReflTransGen.head
        (Step.wrap (⟨"TSLA", 1000000, [("owTSLA", 1000000)], 1⟩ : StockToken) (NewOndoWrappedStock "TSLA") "owTSLA" 1000000 (⟨"owTSLA", 1000000, [("owTSLA", 1000000)], 1000000⟩ : OndoWrappedStock) (⟨"TSLA", 1000000, [("owTSLA", 1000000)], 1⟩ : StockToken) (by rfl)) ?_
      refine Relation.ReflTransGen.head
        (Step.update (⟨"TSLA", 1000000, [("owTSLA", 1000000)], 1⟩ : StockToken) (⟨"owTSLA", 1000000, [("owTSLA", 1000000)], 1000000⟩ : OndoWrappedStock) (⟨"owTSLA", 1000000, [("owTSLA", 1000000)], 1000000⟩ : OndoWrappedStock) (by rfl)) ?_
      refine Relation.ReflTransGen.head
        (Step.wrap (⟨"TSLA", 1000000, [("owTSLA", 1000000)], 1⟩ : StockToken) (⟨"owTSLA", 1000000, [("owTSLA", 1000000)], 1000000⟩ : OndoWrappedStock) "owTSLA" 1000000 (⟨"owTSLA", 2000000, [("owTSLA", 2000000)], 1000000⟩ : OndoWrappedStock) (⟨"TSLA", 1000000, [("owTSLA", 1000000)], 1⟩ : StockToken) (by rfl)) ?_
      refine Relation.ReflTransGen.head
        (Step.update (⟨"TSLA", 1000000, [("owTSLA", 1000000)], 1⟩ : StockToken) (⟨"owTSLA", 2000000, [("owTSLA", 2000000)], 1000000⟩ : OndoWrappedStock) (⟨"owTSLA", 2000000, [("owTSLA", 2000000)], 500000⟩ : OndoWrappedStock) (by rfl)) ?_
      refine Relation.ReflTransGen.head
        (Step.wrap (⟨"TSLA", 1000000, [("owTSLA", 1000000)], 1⟩ : StockToken) (⟨"owTSLA", 2000000, [("owTSLA", 2000000)], 500000⟩ : OndoWrappedStock) "owTSLA" 1000000 (⟨"owTSLA", 4000000, [("owTSLA", 4000000)], 500000⟩ : OndoWrappedStock) (⟨"TSLA", 1000000, [("owTSLA", 1000000)], 1⟩ : StockToken) (by rfl)) ?_
      refine Relation.ReflTransGen.head
        (Step.update (⟨"TSLA", 1000000, [("owTSLA", 1000000)], 1⟩ : StockToken) (⟨"owTSLA", 4000000, [("owTSLA", 4000000)], 500000⟩ : OndoWrappedStock) (⟨"owTSLA", 4000000, [("owTSLA", 4000000)], 250000⟩ : OndoWrappedStock) (by rfl)) ?_
      refine Relation.ReflTransGen.head
        (Step.wrap (⟨"TSLA", 1000000, [("owTSLA", 1000000)], 1⟩ : StockToken) (⟨"owTSLA", 4000000, [("owTSLA", 4000000)], 250000⟩ : OndoWrappedStock) "owTSLA" 1000000 (⟨"owTSLA", 8000000, [("owTSLA", 8000000)], 250000⟩ : OndoWrappedStock) (⟨"TSLA", 1000000, [("owTSLA", 1000000)], 1⟩ : StockToken) (by rfl)) ?_
      refine Relation.ReflTransGen.head
        (Step.update (⟨"TSLA", 1000000, [("owTSLA", 1000000)], 1⟩ : StockToken) (⟨"owTSLA", 8000000, [("owTSLA", 8000000)], 250000⟩ : OndoWrappedStock) (⟨"owTSLA", 8000000, [("owTSLA", 8000000)], 125000⟩ : OndoWrappedStock) (by rfl)) ?_
      refine Relation.ReflTransGen.head
        (Step.wrap (⟨"TSLA", 1000000, [("owTSLA", 1000000)], 1⟩ : StockToken) (⟨"owTSLA", 8000000, [("owTSLA", 8000000)], 125000⟩ : OndoWrappedStock) "owTSLA" 1000000 (⟨"owTSLA", 16000000, [("owTSLA", 16000000)], 125000⟩ : OndoWrappedStock) (⟨"TSLA", 1000000, [("owTSLA", 1000000)], 1⟩ : StockToken) (by rfl)) ?_
      refine Relation.ReflTransGen.head
        (Step.update (⟨"TSLA", 1000000, [("owTSLA", 1000000)], 1⟩ : StockToken) (⟨"owTSLA", 16000000, [("owTSLA", 16000000)], 125000⟩ : OndoWrappedStock) (⟨"owTSLA", 16000000, [("owTSLA", 16000000)], 62500⟩ : OndoWrappedStock) (by rfl)) ?_
      refine Relation.ReflTransGen.head
        (Step.wrap (⟨"TSLA", 1000000, [("owTSLA", 1000000)], 1⟩ : StockToken) (⟨"owTSLA", 16000000, [("owTSLA", 16000000)], 62500⟩ : OndoWrappedStock) "owTSLA" 1000000 (⟨"owTSLA", 32000000, [("owTSLA", 32000000)], 62500⟩ : OndoWrappedStock) (⟨"TSLA", 1000000, [("owTSLA", 1000000)], 1⟩ : StockToken) (by rfl)) ?_
      refine Relation.ReflTransGen.head
        (Step.update (⟨"TSLA", 1000000, [("owTSLA", 1000000)], 1⟩ : StockToken) (⟨"owTSLA", 32000000, [("owTSLA", 32000000)], 62500⟩ : OndoWrappedStock) (⟨"owTSLA", 32000000, [("owTSLA", 32000000)], 31250⟩ : OndoWrappedStock) (by rfl)) ?_
      refine Relation.ReflTransGen.head
        (Step.wrap (⟨"TSLA", 1000000, [("owTSLA", 1000000)], 1⟩ : StockToken) (⟨"owTSLA", 32000000, [("owTSLA", 32000000)], 31250⟩ : OndoWrappedStock) "owTSLA" 1000000 (⟨"owTSLA", 64000000, [("owTSLA", 64000000)], 31250⟩ : OndoWrappedStock) (⟨"TSLA", 1000000, [("owTSLA", 1000000)], 1⟩ : StockToken) (by rfl)) ?_
      refine Relation.ReflTransGen.head
        (Step.update (⟨"TSLA", 1000000, [("owTSLA", 1000000)], 1⟩ : StockToken) (⟨"owTSLA", 64000000, [("owTSLA", 64000000)], 31250⟩ : OndoWrappedStock) (⟨"owTSLA", 64000000, [("owTSLA", 64000000)], 15625⟩ : OndoWrappedStock) (by rfl)) ?_
      refine Relation.ReflTransGen.head
        (Step.wrap (⟨"TSLA", 1000000, [("owTSLA", 1000000)], 1⟩ : StockToken) (⟨"owTSLA", 64000000, [("owTSLA", 64000000)], 15625⟩ : OndoWrappedStock) "owTSLA" 1000000 (⟨"owTSLA", 128000000, [("owTSLA", 128000000)], 15625⟩ : OndoWrappedStock) (⟨"TSLA", 1000000, [("owTSLA", 1000000)], 1⟩ : StockToken) (by rfl)) ?_
      refine Relation.ReflTransGen.head
        (Step.update (⟨"TSLA", 1000000, [("owTSLA", 1000000)], 1⟩ : StockToken) (⟨"owTSLA", 128000000, [("owTSLA", 128000000)], 15625⟩ : OndoWrappedStock) (⟨"owTSLA", 128000000, [("owTSLA", 128000000)], 7812⟩ : OndoWrappedStock) (by rfl)) ?_
      refine Relation.ReflTransGen.head
        (Step.wrap (⟨"TSLA", 1000000, [("owTSLA", 1000000)], 1⟩ : StockToken) (⟨"owTSLA", 128000000, [("owTSLA", 128000000)], 7812⟩ : OndoWrappedStock) "owTSLA" 1000000 (⟨"owTSLA", 256008192, [("owTSLA", 256008192)], 7812⟩ : OndoWrappedStock) (⟨"TSLA", 1000000, [("owTSLA", 1000000)], 1⟩ : StockToken) (by rfl)) ?_
      refine Relation.ReflTransGen.head
        (Step.update (⟨"TSLA", 1000000, [("owTSLA", 1000000)], 1⟩ : StockToken) (⟨"owTSLA", 256008192, [("owTSLA", 256008192)], 7812⟩ : OndoWrappedStock) (⟨"owTSLA", 256008192, [("owTSLA", 256008192)], 3906⟩ : OndoWrappedStock) (by rfl)) ?_
      refine Relation.ReflTransGen.head
        (Step.wrap (⟨"TSLA", 1000000, [("owTSLA", 1000000)], 1⟩ : StockToken) (⟨"owTSLA", 256008192, [("owTSLA", 256008192)], 3906⟩ : OndoWrappedStock) "owTSLA" 1000000 (⟨"owTSLA", 512024577, [("owTSLA", 512024577)], 3906⟩ : OndoWrappedStock) (⟨"TSLA", 1000000, [("owTSLA", 1000000)], 1⟩ : StockToken) (by rfl)) ?_
      refine Relation.ReflTransGen.head
        (Step.update (⟨"TSLA", 1000000, [("owTSLA", 1000000)], 1⟩ : StockToken) (⟨"owTSLA", 512024577, [("owTSLA", 512024577)], 3906⟩ : OndoWrappedStock) (⟨"owTSLA", 512024577, [("owTSLA", 512024577)], 1953⟩ : OndoWrappedStock) (by rfl)) ?_
      refine Relation.ReflTransGen.head
        (Step.wrap (⟨"TSLA", 1000000, [("owTSLA", 1000000)], 1⟩ : StockToken) (⟨"owTSLA", 512024577, [("owTSLA", 512024577)], 1953⟩ : OndoWrappedStock) "owTSLA" 1000000 (⟨"owTSLA", 1024057347, [("owTSLA", 1024057347)], 1953⟩ : OndoWrappedStock) (⟨"TSLA", 1000000, [("owTSLA", 1000000)], 1⟩ : StockToken) (by rfl)) ?_
      refine Relation.ReflTransGen.head
        (Step.update (⟨"TSLA", 1000000, [("owTSLA", 1000000)], 1⟩ : StockToken) (⟨"owTSLA", 1024057347, [("owTSLA", 1024057347)], 1953⟩ : OndoWrappedStock) (⟨"owTSLA", 1024057347, [("owTSLA", 1024057347)], 976⟩ : OndoWrappedStock) (by rfl)) ?_
      refine Relation.ReflTransGen.head
        (Step.wrap (⟨"TSLA", 1000000, [("owTSLA", 1000000)], 1⟩ : StockToken) (⟨"owTSLA", 1024057347, [("owTSLA", 1024057347)], 976⟩ : OndoWrappedStock) "owTSLA" 1000000 (⟨"owTSLA", 2048647510, [("owTSLA", 2048647510)], 976⟩ : OndoWrappedStock) (⟨"TSLA", 1000000, [("owTSLA", 1000000)], 1⟩ : StockToken) (by rfl)) ?_
      refine Relation.ReflTransGen.head
        (Step.update (⟨"TSLA", 1000000, [("owTSLA", 1000000)], 1⟩ : StockToken) (⟨"owTSLA", 2048647510, [("owTSLA", 2048647510)], 976⟩ : OndoWrappedStock) (⟨"owTSLA", 2048647510, [("owTSLA", 2048647510)], 488⟩ : OndoWrappedStock) (by rfl)) ?_
      refine Relation.ReflTransGen.head
        (Step.wrap (⟨"TSLA", 1000000, [("owTSLA", 1000000)], 1⟩ : StockToken) (⟨"owTSLA", 2048647510, [("owTSLA", 2048647510)], 488⟩ : OndoWrappedStock) "owTSLA" 1000000 (⟨"owTSLA", 4097827837, [("owTSLA", 4097827837)], 488⟩ : OndoWrappedStock) (⟨"TSLA", 1000000, [("owTSLA", 1000000)], 1⟩ : StockToken) (by rfl)) ?_
      refine Relation.ReflTransGen.head
        (Step.update (⟨"TSLA", 1000000, [("owTSLA", 1000000)], 1⟩ : StockToken) (⟨"owTSLA", 4097827837, [("owTSLA", 4097827837)], 488⟩ : OndoWrappedStock) (⟨"owTSLA", 4097827837, [("owTSLA", 4097827837)], 244⟩ : OndoWrappedStock) (by rfl)) ?_
      refine Relation.ReflTransGen.head
        (Step.wrap (⟨"TSLA", 1000000, [("owTSLA", 1000000)], 1⟩ : StockToken) (⟨"owTSLA", 4097827837, [("owTSLA", 4097827837)], 244⟩ : OndoWrappedStock) "owTSLA" 1000000 (⟨"owTSLA", 8196188492, [("owTSLA", 8196188492)], 244⟩ : OndoWrappedStock) (⟨"TSLA", 1000000, [("owTSLA", 1000000)], 1⟩ : StockToken) (by rfl)) ?_
      refine Relation.ReflTransGen.head
        (Step.update (⟨"TSLA", 1000000, [("owTSLA", 1000000)], 1⟩ : StockToken) (⟨"owTSLA", 8196188492, [("owTSLA", 8196188492)], 244⟩ : OndoWrappedStock) (⟨"owTSLA", 8196188492, [("owTSLA", 8196188492)], 122⟩ : OndoWrappedStock) (by rfl)) ?_
      refine Relation.ReflTransGen.head
        (Step.wrap (⟨"TSLA", 1000000, [("owTSLA", 1000000)], 1⟩ : StockToken) (⟨"owTSLA", 8196188492, [("owTSLA", 8196188492)], 122⟩ : OndoWrappedStock) "owTSLA" 1000000 (⟨"owTSLA", 16392909803, [("owTSLA", 16392909803)], 122⟩ : OndoWrappedStock) (⟨"TSLA", 1000000, [("owTSLA", 1000000)], 1⟩ : StockToken) (by rfl)) ?_
      refine Relation.ReflTransGen.head
        (Step.update (⟨"TSLA", 1000000, [("owTSLA", 1000000)], 1⟩ : StockToken) (⟨"owTSLA", 16392909803, [("owTSLA", 16392909803)], 122⟩ : OndoWrappedStock) (⟨"owTSLA", 16392909803, [("owTSLA", 16392909803)], 61⟩ : OndoWrappedStock) (by rfl)) ?_
      refine Relation.ReflTransGen.head
        (Step.wrap (⟨"TSLA", 1000000, [("owTSLA", 1000000)], 1⟩ : StockToken) (⟨"owTSLA", 16392909803, [("owTSLA", 16392909803)], 61⟩ : OndoWrappedStock) "owTSLA" 1000000 (⟨"owTSLA", 32786352425, [("owTSLA", 32786352425)], 61⟩ : OndoWrappedStock) (⟨"TSLA", 1000000, [("owTSLA", 1000000)], 1⟩ : StockToken) (by rfl)) ?_
      refine Relation.ReflTransGen.head
        (Step.update (⟨"TSLA", 1000000, [("owTSLA", 1000000)], 1⟩ : StockToken) (⟨"owTSLA", 32786352425, [("owTSLA", 32786352425)], 61⟩ : OndoWrappedStock) (⟨"owTSLA", 32786352425, [("owTSLA", 32786352425)], 30⟩ : OndoWrappedStock) (by rfl)) ?_
      refine Relation.ReflTransGen.head
        (Step.wrap (⟨"TSLA", 1000000, [("owTSLA", 1000000)], 1⟩ : StockToken) (⟨"owTSLA", 32786352425, [("owTSLA", 32786352425)], 30⟩ : OndoWrappedStock) "owTSLA" 1000000 (⟨"owTSLA", 66119685758, [("owTSLA", 66119685758)], 30⟩ : OndoWrappedStock) (⟨"TSLA", 1000000, [("owTSLA", 1000000)], 1⟩ : StockToken) (by rfl)) ?_
      refine Relation.ReflTransGen.head
        (Step.update (⟨"TSLA", 1000000, [("owTSLA", 1000000)], 1⟩ : StockToken) (⟨"owTSLA", 66119685758, [("owTSLA", 66119685758)], 30⟩ : OndoWrappedStock) (⟨"owTSLA", 66119685758, [("owTSLA", 66119685758)], 15⟩ : OndoWrappedStock) (by rfl)) ?_
      refine Relation.ReflTransGen.head
        (Step.wrap (⟨"TSLA", 1000000, [("owTSLA", 1000000)], 1⟩ : StockToken) (⟨"owTSLA", 66119685758, [("owTSLA", 66119685758)], 15⟩ : OndoWrappedStock) "owTSLA" 1000000 (⟨"owTSLA", 132786352424, [("owTSLA", 132786352424)], 15⟩ : OndoWrappedStock) (⟨"TSLA", 1000000, [("owTSLA", 1000000)], 1⟩ : StockToken) (by rfl)) ?_
      refine Relation.ReflTransGen.head
        (Step.update (⟨"TSLA", 1000000, [("owTSLA", 1000000)], 1⟩ : StockToken) (⟨"owTSLA", 132786352424, [("owTSLA", 132786352424)], 15⟩ : OndoWrappedStock) (⟨"owTSLA", 132786352424, [("owTSLA", 132786352424)], 7⟩ : OndoWrappedStock) (by rfl)) ?_
      refine Relation.ReflTransGen.head
        (Step.wrap (⟨"TSLA", 1000000, [("owTSLA", 1000000)], 1⟩ : StockToken) (⟨"owTSLA", 132786352424, [("owTSLA", 132786352424)], 7⟩ : OndoWrappedStock) "owTSLA" 1000000 (⟨"owTSLA", 275643495281, [("owTSLA", 275643495281)], 7⟩ : OndoWrappedStock) (⟨"TSLA", 1000000, [("owTSLA", 1000000)], 1⟩ : StockToken) (by rfl)) ?_
      refine Relation.ReflTransGen.head
        (Step.update (⟨"TSLA", 1000000, [("owTSLA", 1000000)], 1⟩ : StockToken) (⟨"owTSLA", 275643495281, [("owTSLA", 275643495281)], 7⟩ : OndoWrappedStock) (⟨"owTSLA", 275643495281, [("owTSLA", 275643495281)], 3⟩ : OndoWrappedStock) (by rfl)) ?_
      refine Relation.ReflTransGen.head
        (Step.wrap (⟨"TSLA", 1000000, [("owTSLA", 1000000)], 1⟩ : StockToken) (⟨"owTSLA", 275643495281, [("owTSLA", 275643495281)], 3⟩ : OndoWrappedStock) "owTSLA" 1000000 (⟨"owTSLA", 608976828614, [("owTSLA", 608976828614)], 3⟩ : OndoWrappedStock) (⟨"TSLA", 1000000, [("owTSLA", 1000000)], 1⟩ : StockToken) (by rfl)) ?_
      refine Relation.ReflTransGen.head
        (Step.update (⟨"TSLA", 1000000, [("owTSLA", 1000000)], 1⟩ : StockToken) (⟨"owTSLA", 608976828614, [("owTSLA", 608976828614)], 3⟩ : OndoWrappedStock) (⟨"owTSLA", 608976828614, [("owTSLA", 608976828614)], 1⟩ : OndoWrappedStock) (by rfl)) ?_
      refine Relation.ReflTransGen.head
        (Step.wrap (⟨"TSLA", 1000000, [("owTSLA", 1000000)], 1⟩ : StockToken) (⟨"owTSLA", 608976828614, [("owTSLA", 608976828614)], 1⟩ : OndoWrappedStock) "owTSLA" 1000000 (⟨"owTSLA", 1608976828614, [("owTSLA", 1608976828614)], 1⟩ : OndoWrappedStock) (⟨"TSLA", 1000000, [("owTSLA", 1000000)], 1⟩ : StockToken) (by rfl)) ?_
      exact Relation.ReflTransGen.single
        (Step.update (⟨"TSLA", 1000000, [("owTSLA", 1000000)], 1⟩ : StockToken) (⟨"owTSLA", 1608976828614, [("owTSLA", 1608976828614)], 1⟩ : OndoWrappedStock) (⟨"owTSLA", 1608976828614, [("owTSLA", 1608976828614)], 0⟩ : OndoWrappedStock) (by rfl))
    · rfl
  · constructor
    · refine Relation.ReflTransGen.head
        (Step.mint (NewStockToken "TSLA") (NewOndoWrappedStock "TSLA") "A" 1) ?_
      refine Relation.ReflTransGen.head
        (Step.wrap (⟨"TSLA", 1000000, [("A", 1000000)], 1⟩ : StockToken)
          (NewOndoWrappedStock "TSLA") "A" 1000000
          (⟨"owTSLA", 1000000, [("A", 1000000)], 1000000⟩ : OndoWrappedStock)
          (⟨"TSLA", 1000000, [("A", 0), ("owTSLA", 1000000)], 1⟩ : StockToken) (by rfl)) ?_
      refine Relation.ReflTransGen.head
        (Step.mint (⟨"TSLA", 1000000, [("A", 0), ("owTSLA", 1000000)], 1⟩ : StockToken)
          (⟨"owTSLA", 1000000, [("A", 1000000)], 1000000⟩ : OndoWrappedStock)
          "owTSLA" 9223372036854775808) ?_
      exact Relation.ReflTransGen.single
        (Step.update (⟨"TSLA", -9223372036854775807000000,
            [("A", 0), ("owTSLA", -9223372036854775807000000)], 1⟩ : StockToken)
          (⟨"owTSLA", 1000000, [("A", 1000000)], 1000000⟩ : OndoWrappedStock)
          (⟨"owTSLA", 1000000, [("A", 1000000)],
            -9223372036854775807000000⟩ : OndoWrappedStock) (by rfl))
    · decide

/-- C3 (amended): the exchange rate is at least one (hence strictly
positive) in every state reachable from freshly constructed ledgers by
sequences of mint, wrapper transfer, wrap, unwrap, claim, corporate
action and exchange rate update operations in which operation amounts
are the non negative values a caller can denote, mint share counts and
split multipliers are below 2 to the 63 (so the int64 conversion the Go
code applies to them keeps their value), split multipliers are positive,
dividends carry non negative cash and positive share price,
and wrap is never invoked with the custody address itself as the sender;
in every such state updateExchangeRate leaves the rate unchanged when
the wrapper supply is zero and otherwise sets it to the floor of the
custody balance times the scale over the supply, a division by the
nonzero supply that itself yields a rate of at least one. -/
theorem C3_exchange_rate_amended (a b : String)
    (s : StockToken × OndoWrappedStock)
    (h : Relation.ReflTransGen GoodStep
      (NewStockToken a, NewOndoWrappedStock b) s) :
    1 ≤ s.2.exchangeRate ∧
    (s.2.totalSupply = 0 → UpdateExchangeRate s.2 s.1 = .ok s.2) ∧
    (s.2.totalSupply ≠ 0 →
      UpdateExchangeRate s.2 s.1 = .ok { s.2 with exchangeRate :=
        (getOr0 s.1.balances s.2.ticker * basePrecision) / s.2.totalSupply } ∧
      1 ≤ (getOr0 s.1.balances s.2.ticker * basePrecision) / s.2.totalSupply) := by
  have hI := inv_reachable a b s h
  refine ⟨hI.rate_one, ?_, ?_⟩
  · intro h0
    simp [UpdateExchangeRate, h0]
  · intro h0
    obtain ⟨c, hc⟩ := Option.isSome_iff_exists.1 (hI.custody_some h0)
    have hcg : getOr0 s.1.balances s.2.ticker = c := by
      unfold getOr0
      rw [hc]
      rfl
    have hS0 : 0 ≤ s.2.totalSupply := by
      rw [hI.supply_sum]
      exact valSum_nonneg _ hI.ow_nonneg
    have hSpos : 0 < s.2.totalSupply := lt_of_le_of_ne hS0 (Ne.symm h0)
    have hbk := hI.backing
    rw [hcg] at hbk
    have hSr : s.2.totalSupply ≤ s.2.totalSupply * s.2.exchangeRate :=
      le_mul_of_one_le_right hS0 hI.rate_one
    constructor
    · rw [hcg]
      simp [UpdateExchangeRate, h0, hc]
    · rw [hcg, Int.le_ediv_iff_mul_le hSpos]
      linarith

/-- Witness for the amended C3 at the initial state itself, reachable by
the empty sequence. -/
theorem C3_exchange_rate_amended_witness :
    1 ≤ (NewOndoWrappedStock "TSLA").exchangeRate ∧
    ((NewOndoWrappedStock "TSLA").totalSupply = 0 →
      UpdateExchangeRate (NewOndoWrappedStock "TSLA") (NewStockToken "TSLA") =
        .ok (NewOndoWrappedStock "TSLA")) ∧
    ((NewOndoWrappedStock "TSLA").totalSupply ≠ 0 →
      UpdateExchangeRate (NewOndoWrappedStock "TSLA") (NewStockToken "TSLA") =
        .ok { NewOndoWrappedStock "TSLA" with exchangeRate :=
          (getOr0 (NewStockToken "TSLA").balances
            (NewOndoWrappedStock "TSLA").ticker * basePrecision) /
            (NewOndoWrappedStock "TSLA").totalSupply } ∧
      1 ≤ (getOr0 (NewStockToken "TSLA").balances
        (NewOndoWrappedStock "TSLA").ticker * basePrecision) /
        (NewOndoWrappedStock "TSLA").totalSupply) :=
  C3_exchange_rate_amended "TSLA" "TSLA"
    (NewStockToken "TSLA", NewOndoWrappedStock "TSLA") Relation.ReflTransGen.refl

end Ondo
